import Mathlib

/-!
Verification of the `ut-arena` generation-hardened slot arena core.

The definitions below are a shallow embedding of the Rust sources:
* `src/ut-arena/src/generation.rs` (the `Generation` trait, the `prim!`
  bit-width policies and `NoGeneration`),
* `src/ut-arena/src/key.rs` (`ArenaKey` and the `ArenaIndex` trait),
* `src/ut-arena/src/generic_sparse.rs` (`Slot`, `GenericSparseArena`),
* `src/ut-arena/src/dense_tracker.rs` (`GenericDenseTracker`),
* `src/ut-arena/src/generic_dense.rs` (`GenericDenseArena`).

Machine integers (`u8`..`u128`, `usize`) are modelled as `Nat` with the
`2 ^ bits` bound carried as an invariant where overflow matters; the
internal index type `I : InternalIndex` is modelled at its default
instantiation `usize -> Nat` (the claims under verification do not
depend on the narrow-index widths).  Rust panics are modelled as `none`
results of `Option`-valued functions.
-/

namespace UtArena

/-- Shallow embedding of the `Generation` trait of `generation.rs`:
a record of the trait's operations. `tryEmpty` returns `none` where the
Rust returns `Err` (generation exhausted). -/
structure GenerationImpl (G F : Type) where
  EMPTY : G
  fill : G → G
  tryEmpty : G → Option G
  toFilled : G → F
  gmatches : G → F → Bool
  isEmpty : G → Bool

/-- `Generation::is_filled` has the default body `!self.is_empty()`. -/
def GenerationImpl.isFilled (gi : GenerationImpl G F) (g : G) : Bool :=
  !gi.isEmpty g

/-- The documented contract of the `Generation` trait (the properties its
`unsafe` contract and the kani harness `test_generation` demand), used to
prove invariants uniformly over all policies. -/
structure GenLaws (gi : GenerationImpl G F) : Prop where
  empty_isEmpty : gi.isEmpty gi.EMPTY = true
  fill_not_isEmpty : ∀ g, gi.isEmpty g = true → gi.isEmpty (gi.fill g) = false
  tryEmpty_isEmpty : ∀ g g', gi.isEmpty g = false → gi.tryEmpty g = some g' →
    gi.isEmpty g' = true

/-- The bit-width-parameterized saturating policy of the `prim!` macro
(`g8`, `g16`, `g32`, `g64`, `g128`, `gsize` with `bits` the width of the
backing unsigned integer).  The counter is a `Nat` kept below `2 ^ bits`;
`fill` is `self.0 | 1`; `try_empty` is `checked_add(1)`, which fails
exactly when the successor would not fit the width; `matches` is integer
equality with the key's snapshot. -/
def satGen (bits : Nat) : GenerationImpl Nat Nat where
  EMPTY := 0
  fill g := g ||| 1
  tryEmpty g := if g + 1 < 2 ^ bits then some (g + 1) else none
  toFilled g := g
  gmatches g f := g = f
  isEmpty g := g % 2 = 0

/-- The bit-width-parameterized wrapping policy of the `prim!` macro
(`gw8` .. `gw128`, `gwsize`): `try_empty` is `wrapping_add(1)` and never
fails. -/
def wrapGen (bits : Nat) : GenerationImpl Nat Nat where
  EMPTY := 0
  fill g := g ||| 1
  tryEmpty g := some ((g + 1) % 2 ^ bits)
  toFilled g := g
  gmatches g f := g = f
  isEmpty g := g % 2 = 0

/-- `NoGeneration`: a `bool` that only records filled/empty, with
`Filled = ()` and `matches` returning `self.0` (i.e. "the slot is
filled"). -/
def noGen : GenerationImpl Bool Unit where
  EMPTY := false
  fill _ := true
  tryEmpty _ := some false
  toFilled _ := ()
  gmatches g _ := g
  isEmpty g := !g

/-- `ArenaKey` of `key.rs`: an (index, filled-generation snapshot) pair. -/
structure ArenaKey (F : Type) where
  index : Nat
  generation : F
deriving DecidableEq, Repr

/-- Shallow embedding of the `ArenaIndex` trait of `key.rs`: how a key
type `K` is minted, converted to a raw index, and checked against a
slot's live generation. -/
structure ArenaIndexImpl (K G F : Type) where
  new : Nat → F → K
  toIndex : K → Nat
  matchesGeneration : K → G → Bool

/-- The `ArenaIndex for usize` impl: plain integer keys; `new` discards
the generation and `matches_generation` is just `g.is_filled()`. -/
def usizeKI (gi : GenerationImpl G F) : ArenaIndexImpl Nat G F where
  new i _ := i
  toIndex i := i
  matchesGeneration _ g := gi.isFilled g

/-- The `ArenaIndex for ArenaKey<usize, G>` impl: `matches_generation`
compares the slot's live generation against the key's snapshot via
`Generation::matches`. -/
def arenaKeyKI (gi : GenerationImpl G F) : ArenaIndexImpl (ArenaKey F) G F where
  new i f := ⟨i, f⟩
  toIndex k := k.index
  matchesGeneration k g := gi.gmatches g k.generation

/-- The `Slot` union of `generic_sparse.rs`, rendered as the tagged sum
the union multiplexes: a filled slot stores the generation and the value,
an empty slot stores the generation and the free-list link
`next_empty_slot`.  The generation is readable in both states. -/
inductive Slot (T G : Type) where
  | filled : G → T → Slot T G
  | empty : G → Nat → Slot T G
deriving DecidableEq, Repr

namespace Slot

/-- `Slot::generation`: the generation prefix shared by both variants. -/
def generation : Slot T G → G
  | .filled g _ => g
  | .empty g _ => g

/-- Whether the slot is in the filled variant (the source discriminates
via the generation; the constructor is the discriminant here and the
correspondence is the invariant `SlotsParity` below). -/
def isFilledSlot : Slot T G → Bool
  | .filled _ _ => true
  | .empty _ _ => false

/-- The value of a filled slot.  The source reads `self.filled.value`
unchecked after a generation check; on the (unreachable under the
arena's invariant) empty variant this embedding returns `none`. -/
def value? : Slot T G → Option T
  | .filled _ v => some v
  | .empty _ _ => none

/-- `EmptySlot::next_empty_slot`, with a junk default of `0` on the
filled variant (the source's corresponding read is gated on the slot
being empty). -/
def nextEmptyD : Slot T G → Nat
  | .filled _ _ => 0
  | .empty _ n => n

end Slot

/-- `GenericSparseArena`: a free-list head plus the growable slot array
(`ut_vec::UtVec` at owner `()` is a plain vector). -/
structure GenericSparseArena (T G : Type) where
  free_list_head : Nat
  slots : List (Slot T G)
deriving DecidableEq, Repr

namespace GenericSparseArena

variable {T G F K : Type}

/-- `GenericSparseArena::new`. -/
def new : GenericSparseArena T G := ⟨0, []⟩

/-- `reserve_vacant_slot_slow`: push a fresh empty slot whose free-list
link points one past the (new) end of the array.  Only called when
`free_list_head == slots.len()`. -/
def reserveVacantSlotSlow (gi : GenerationImpl G F) (a : GenericSparseArena T G) :
    GenericSparseArena T G :=
  ⟨a.free_list_head, a.slots ++ [.empty gi.EMPTY (a.free_list_head + 1)]⟩

/-- The state change of `vacant_slot`: grow by one empty slot if the
free list is exhausted.  (Obtaining a `VacantSlot` and dropping it
without inserting leaves the arena in exactly this state.) -/
def vacantPrep (gi : GenerationImpl G F) (a : GenericSparseArena T G) :
    GenericSparseArena T G :=
  if a.free_list_head = a.slots.length then reserveVacantSlotSlow gi a else a

/-- `insert_with`: take the vacant slot at the free-list head, mint the
key from `(head, fill(gen).to_filled())` (`VacantSlot::key`), write the
value and the filled generation, and advance the head to the slot's
recorded `next_empty_slot` (`VacantSlot::insert`). -/
def insertWith (gi : GenerationImpl G F) (ki : ArenaIndexImpl K G F)
    (a : GenericSparseArena T G) (f : K → T) : K × GenericSparseArena T G :=
  let a1 := vacantPrep gi a
  let i := a1.free_list_head
  let s := a1.slots.getD i (.empty gi.EMPTY 0)
  let g := gi.fill s.generation
  let key := ki.new i (gi.toFilled g)
  (key, ⟨s.nextEmptyD, a1.slots.set i (.filled g (f key))⟩)

/-- `insert`: the specialized fast path pushes an already-filled slot
when the free list is empty, otherwise defers to `insert_with`. -/
def insert (gi : GenerationImpl G F) (ki : ArenaIndexImpl K G F)
    (a : GenericSparseArena T G) (v : T) : K × GenericSparseArena T G :=
  if a.free_list_head = a.slots.length then
    let key := ki.new a.free_list_head (gi.toFilled (gi.fill gi.EMPTY))
    (key, ⟨a.free_list_head + 1, a.slots ++ [.filled (gi.fill gi.EMPTY) v]⟩)
  else
    insertWith gi ki a (fun _ => v)

/-- `GenericSparseArena::get`: bounds check, then generation check, then
read the filled payload. -/
def get (_gi : GenerationImpl G F) (ki : ArenaIndexImpl K G F)
    (a : GenericSparseArena T G) (k : K) : Option T :=
  match a.slots[ki.toIndex k]? with
  | none => none
  | some s => if ki.matchesGeneration k s.generation then s.value? else none

/-- `Slot::remove` as a state transformer on (slot, free-list head):
on `try_empty` success the slot is relinked onto the free list (slot's
link := old head, head := slot index); on failure the generation is set
to `EMPTY`, the link to the slot's own index, and the head is left
alone. -/
def removeStep (gi : GenerationImpl G F) (g : G) (index flh : Nat) :
    (G × Nat) × Nat :=
  match gi.tryEmpty g with
  | some g' => ((g', flh), index)
  | none => ((gi.EMPTY, index), flh)

/-- `GenericSparseArena::try_remove`: returns the removed value and the
updated arena, or `none` with the arena untouched when the key is out of
bounds or its generation does not match. -/
def tryRemove (gi : GenerationImpl G F) (ki : ArenaIndexImpl K G F)
    (a : GenericSparseArena T G) (k : K) : Option T × GenericSparseArena T G :=
  let i := ki.toIndex k
  match a.slots[i]? with
  | none => (none, a)
  | some s =>
    if ki.matchesGeneration k s.generation then
      match s with
      | .filled g v =>
        let r := removeStep gi g i a.free_list_head
        (some v, ⟨r.2, a.slots.set i (.empty r.1.1 r.1.2)⟩)
      | .empty _ _ => (none, a)
    else (none, a)

/-- `GenericSparseArena::remove`: the panicking variant;
`none` models the panic (out of bounds, or
`assert_matches_generation` failure). -/
def remove (gi : GenerationImpl G F) (ki : ArenaIndexImpl K G F)
    (a : GenericSparseArena T G) (k : K) : Option (T × GenericSparseArena T G) :=
  let i := ki.toIndex k
  match a.slots[i]? with
  | none => none
  | some s =>
    if ki.matchesGeneration k s.generation then
      match s with
      | .filled g v =>
        let r := removeStep gi g i a.free_list_head
        some (v, ⟨r.2, a.slots.set i (.empty r.1.1 r.1.2)⟩)
      | .empty _ _ => none
    else none

/-- The `Index` (panicking accessor) impl: same checks as `get`, `none`
models the panic. -/
def indexAt (gi : GenerationImpl G F) (ki : ArenaIndexImpl K G F)
    (a : GenericSparseArena T G) (k : K) : Option T :=
  get gi ki a k

/-- The effect of writing through `get_mut`/`get_unchecked_mut` at slot
`i`: replace a filled slot's value, leaving generation and links alone
(used by the dense tracker's swap-remove patch). -/
def setValueAt (a : GenericSparseArena T G) (i : Nat) (v : T) :
    GenericSparseArena T G :=
  match a.slots[i]? with
  | some (.filled g _) => ⟨a.free_list_head, a.slots.set i (.filled g v)⟩
  | _ => a

end GenericSparseArena

/-- `Vec::swap_remove`: replace the element at `i` with the last element
and pop the last.  (Callers keep `i` in bounds; the out-of-range case is
unreachable under the tracker's invariant.) -/
def listSwapRemove (l : List α) (i : Nat) : List α :=
  match l.getLast? with
  | none => l
  | some last => (l.set i last).dropLast

/-- `GenericDenseTracker`: the reverse map `keys` (position → forward-map
slot index) and the forward map `index` (a sparse arena of positions).
The internal index `I` is modelled at `usize`/`Nat`. -/
structure GenericDenseTracker (G : Type) where
  keys : List Nat
  index : GenericSparseArena Nat G
deriving DecidableEq, Repr

namespace GenericDenseTracker

variable {G F K : Type}

/-- `GenericDenseTracker::new`. -/
def new : GenericDenseTracker G := ⟨[], GenericSparseArena.new⟩

/-- The state change of `GenericDenseTracker::vacant_slot` when the
vacant slot is dropped without inserting: the inner sparse arena may
grow. -/
def vacantPrep (gi : GenerationImpl G F) (t : GenericDenseTracker G) :
    GenericDenseTracker G :=
  ⟨t.keys, t.index.vacantPrep gi⟩

/-- `vacant_slot` followed by `VacantSlot::insert`: record the filled
forward-map slot index at position `len` in the reverse map, and store
the position `len` in the forward map; the minted key is the sparse
vacant slot's key. -/
def insertKey (gi : GenerationImpl G F) (ki : ArenaIndexImpl K G F)
    (t : GenericDenseTracker G) : K × GenericDenseTracker G :=
  let p := t.keys.length
  let i := (t.index.vacantPrep gi).free_list_head
  let r := t.index.insertWith gi ki (fun _ => p)
  (r.1, ⟨t.keys ++ [i], r.2⟩)

/-- `GenericDenseTracker::get`: defers to the sparse forward map. -/
def get (gi : GenerationImpl G F) (ki : ArenaIndexImpl K G F)
    (t : GenericDenseTracker G) (k : K) : Option Nat :=
  t.index.get gi ki k

/-- `GenericDenseTracker::remove_at`: swap-remove position `index_fwd`
out of the reverse map, and if an entry was moved into the vacated
position, patch that entry's forward-map position value. -/
def removeAt (t : GenericDenseTracker G) (index_fwd : Nat) :
    Nat × GenericDenseTracker G :=
  let keys' := listSwapRemove t.keys index_fwd
  match keys'[index_fwd]? with
  | some key_of_end => (index_fwd, ⟨keys', t.index.setValueAt key_of_end index_fwd⟩)
  | none => (index_fwd, ⟨keys', t.index⟩)

/-- `GenericDenseTracker::try_remove`. -/
def tryRemove (gi : GenerationImpl G F) (ki : ArenaIndexImpl K G F)
    (t : GenericDenseTracker G) (k : K) : Option Nat × GenericDenseTracker G :=
  match t.index.tryRemove gi ki k with
  | (none, _) => (none, t)
  | (some p, a') =>
    let r := GenericDenseTracker.removeAt ⟨t.keys, a'⟩ p
    (some r.1, r.2)

end GenericDenseTracker

/-- `GenericDenseArena`: a dense tracker plus the flat value array kept
in lockstep. -/
structure GenericDenseArena (T G : Type) where
  values : List T
  tracker : GenericDenseTracker G
deriving DecidableEq, Repr

namespace GenericDenseArena

variable {T G F K : Type}

/-- `GenericDenseArena::new`. -/
def new : GenericDenseArena T G := ⟨[], GenericDenseTracker.new⟩

/-- `GenericDenseArena::insert` / `insert_with`: write the value at
position `values.len()` and commit the tracker slot. -/
def insert (gi : GenerationImpl G F) (ki : ArenaIndexImpl K G F)
    (d : GenericDenseArena T G) (v : T) : K × GenericDenseArena T G :=
  let r := d.tracker.insertKey gi ki
  (r.1, ⟨d.values ++ [v], r.2⟩)

/-- `GenericDenseArena::get`: translate key → position via the tracker,
then index the value array. -/
def get (gi : GenerationImpl G F) (ki : ArenaIndexImpl K G F)
    (d : GenericDenseArena T G) (k : K) : Option T :=
  match d.tracker.get gi ki k with
  | none => none
  | some p => d.values[p]?

/-- `GenericDenseArena::try_remove`: tracker removal (which fixes up the
reverse mapping) followed by swap-remove of the value array at the
vacated position. -/
def tryRemove (gi : GenerationImpl G F) (ki : ArenaIndexImpl K G F)
    (d : GenericDenseArena T G) (k : K) : Option T × GenericDenseArena T G :=
  match d.tracker.tryRemove gi ki k with
  | (none, _) => (none, d)
  | (some p, t') => (d.values[p]?, ⟨listSwapRemove d.values p, t'⟩)

end GenericDenseArena

/-! ### Arithmetic and list helper lemmas -/

/-- The state after a successful removal at slot `i` (the mutation
performed by `Slot::remove` through `try_remove`/`remove`/
`remove_unchecked` once the generation check has passed): on `try_empty`
success the slot is relinked at the head of the free list, on failure it
is retired (`EMPTY` generation, link to itself, head untouched).  If the
slot is not filled this is the identity (no removal happens). -/
def GenericSparseArena.removeStateAt (gi : GenerationImpl G F)
    (a : GenericSparseArena T G) (i : Nat) : GenericSparseArena T G :=
  match a.slots[i]? with
  | some (.filled g _) =>
    match gi.tryEmpty g with
    | some g' => ⟨i, a.slots.set i (.empty g' a.free_list_head)⟩
    | none => ⟨a.free_list_head, a.slots.set i (.empty gi.EMPTY i)⟩
  | _ => a

/-- The operations that mutate a sparse arena, quantified over in the
"any sequence of operations" claims: `vacant_slot` (possibly dropped
without inserting), `insert`/`insert_with`, a (successful or failed)
removal at a raw index, and a value overwrite through `get_mut` (also
performed by the dense tracker's swap-remove patch). -/
inductive SOp (T : Type) where
  | vacant
  | insert (v : T)
  | removeAt (i : Nat)
  | update (i : Nat) (v : T)

/-- One mutating operation on a sparse arena. -/
def sstep (gi : GenerationImpl G F) (a : GenericSparseArena T G) :
    SOp T → GenericSparseArena T G
  | .vacant => a.vacantPrep gi
  | .insert v => (a.insertWith gi (usizeKI gi) (fun _ => v)).2
  | .removeAt i => a.removeStateAt gi i
  | .update i v => a.setValueAt i v

/-- Run a sequence of mutating operations. -/
def srun (gi : GenerationImpl G F) (a : GenericSparseArena T G)
    (ops : List (SOp T)) : GenericSparseArena T G :=
  ops.foldl (sstep gi) a

/-- `a'` is reachable from `a` by some sequence of arena operations. -/
def SReach (gi : GenerationImpl G F)
    (a a' : GenericSparseArena T G) : Prop :=
  ∃ ops, srun gi a ops = a'

/-! ### The free-list and generation-parity invariants -/

/-- The slot constructor agrees with what the generation says: a filled
slot holds a filled generation and an empty slot an empty one (in the
source the generation IS the discriminant, so this is exact). -/
def SlotsParity (gi : GenerationImpl G F) (a : GenericSparseArena T G) : Prop :=
  ∀ (i : Nat) (s : Slot T G), a.slots[i]? = some s →
    gi.isEmpty s.generation = !s.isFilledSlot

/-- The chain of empty slots threaded from `n` through the
`next_empty_slot` links, terminating one past the end of the array. -/
inductive FreeChain (slots : List (Slot T G)) : Nat → List Nat → Prop where
  | nil : FreeChain slots slots.length []
  | cons {i n : Nat} {fl : List Nat} (g : G)
      (hi : slots[i]? = some (.empty g n))
      (hc : FreeChain slots n fl) : FreeChain slots i (i :: fl)

/-- The free-list invariant: the chain from `free_list_head` exists, and
every empty slot is either on it or is a retired slot (whose link points
at itself, as written by `Slot::remove` on `try_empty` failure). -/
def FreeWF (a : GenericSparseArena T G) : Prop :=
  ∃ fl, FreeChain a.slots a.free_list_head fl
    ∧ ∀ i g n, a.slots[i]? = some (Slot.empty g n) → i ∈ fl ∨ n = i

/-- The full representation invariant of reachable sparse arenas. -/
def SWF (gi : GenerationImpl G F) (a : GenericSparseArena T G) : Prop :=
  SlotsParity gi a ∧ FreeWF a

/-- The mutating operations on a dense tracker. -/
inductive TOp (F : Type) where
  | vacant
  | insert
  | removeKey (k : ArenaKey F)
  | removeIdx (i : Nat)

/-- One mutating operation on a dense tracker. -/
def dtstep (gi : GenerationImpl G F) (t : GenericDenseTracker G) :
    TOp F → GenericDenseTracker G
  | .vacant => t.vacantPrep gi
  | .insert => (t.insertKey gi (arenaKeyKI gi)).2
  | .removeKey k => (t.tryRemove gi (arenaKeyKI gi) k).2
  | .removeIdx i => (t.tryRemove gi (usizeKI gi) i).2

/-- Run a sequence of tracker operations. -/
def dtrun (gi : GenerationImpl G F) (t : GenericDenseTracker G)
    (ops : List (TOp F)) : GenericDenseTracker G :=
  ops.foldl (dtstep gi) t

/-- Tracker reachability. -/
def TReach (gi : GenerationImpl G F) (t t' : GenericDenseTracker G) : Prop :=
  ∃ ops, dtrun gi t ops = t'

/-- The dense-tracker invariant: the forward map is well-formed, every
reverse-map entry points at a forward-map slot whose stored position is
its own position (the bijection of C2), and conversely every filled
forward-map slot is indexed by the reverse map at its stored position. -/
def TWF (gi : GenerationImpl G F) (t : GenericDenseTracker G) : Prop :=
  SWF gi t.index
  ∧ (∀ (p j : Nat), t.keys[p]? = some j →
      ∃ g, t.index.slots[j]? = some (Slot.filled g p))
  ∧ (∀ (j : Nat) (g : G) (p : Nat),
      t.index.slots[j]? = some (Slot.filled g p) → t.keys[p]? = some j)

/-! ### Dense arena operations and the projection to the forward map -/

/-- The mutating operations on a dense arena. -/
inductive DAOp (T F : Type) where
  | vacant
  | insert (v : T)
  | removeKey (k : ArenaKey F)
  | removeIdx (i : Nat)

/-- One mutating operation on a dense arena. -/
def dastep (gi : GenerationImpl G F) (d : GenericDenseArena T G) :
    DAOp T F → GenericDenseArena T G
  | .vacant => ⟨d.values, d.tracker.vacantPrep gi⟩
  | .insert v => (d.insert gi (arenaKeyKI gi) v).2
  | .removeKey k => (d.tryRemove gi (arenaKeyKI gi) k).2
  | .removeIdx i => (d.tryRemove gi (usizeKI gi) i).2

/-- Run a sequence of dense-arena operations. -/
def darun (gi : GenerationImpl G F) (d : GenericDenseArena T G)
    (ops : List (DAOp T F)) : GenericDenseArena T G :=
  ops.foldl (dastep gi) d

/-- The tracker operation corresponding to a dense-arena operation. -/
def DAOp.toTOp : DAOp T F → TOp F
  | .vacant => .vacant
  | .insert _ => .insert
  | .removeKey k => .removeKey k
  | .removeIdx i => .removeIdx i

/-! ### C3: 8-bit saturating generation exhaustion (the source test
`generic_dense::tests::basic` scenario) -/

/-- One insert/remove cycle on slot 0 of a `g8` dense arena, removing
with the key the insertion returned (as the source test does). -/
def g8cycle (d : GenericDenseArena Nat Nat) : GenericDenseArena Nat Nat :=
  let r := d.insert (satGen 8) (arenaKeyKI (satGen 8)) 0
  (r.2.tryRemove (satGen 8) (arenaKeyKI (satGen 8)) r.1).2

/-- `n` cycles applied to `d`. -/
def g8cycleN : Nat → GenericDenseArena Nat Nat → GenericDenseArena Nat Nat
  | 0, d => d
  | n + 1, d => g8cycle (g8cycleN n d)

/-- `n` insert/remove cycles on a fresh `g8` dense arena. -/
def g8cycles (n : Nat) : GenericDenseArena Nat Nat :=
  g8cycleN n GenericDenseArena.new

/-! ### Saturating-generation monotonicity (C1) -/

/-- All generations in the arena fit the policy's bit width (machine
integers cannot hold anything else). -/
def RangeInv (b : Nat) (a : GenericSparseArena T Nat) : Prop :=
  ∀ (i : Nat) (st : Slot T Nat), a.slots[i]? = some st →
    st.generation < 2 ^ b

/-- After a successful removal with snapshot `s` at slot `j` under a
saturating policy, the slot's generation is forever strictly above `s`
(and in range), or the slot is retired. -/
def SatStable (b s j : Nat) (a : GenericSparseArena T Nat) : Prop :=
  j < a.slots.length
  ∧ ∀ st : Slot T Nat, a.slots[j]? = some st →
      (s < st.generation ∧ st.generation < 2 ^ b) ∨ st = Slot.empty 0 j

/-- On an even counter, `self.0 | 1` is exactly the successor — the
`prim!` policies' `fill` increments the generation. -/
theorem lor_one_of_even {v : Nat} (h : v % 2 = 0) : v ||| 1 = v + 1 := by
  apply Nat.eq_of_testBit_eq
  intro i
  rw [Nat.testBit_lor]
  cases i with
  | zero =>
    simp [Nat.testBit_zero, h]
    omega
  | succ n =>
    have h1 : Nat.testBit 1 (n + 1) = false := by
      simp [Nat.testBit_add_one]
    have h2 : (v + 1) / 2 = v / 2 := by omega
    simp [h1, Nat.testBit_add_one, h2]

theorem set_append_length (l : List α) (e x : α) :
    (l ++ [e]).set l.length x = l ++ [x] := by
  induction l with
  | nil => rfl
  | cons a t ih => simp [List.set, ih]

/-! ### C10: `insert` fast path is equivalent to `insert_with` -/

/-- Shared helper: `insert` agrees with `insert_with` on every state. -/
theorem insert_eq_insertWith {T G F K : Type}
    (gi : GenerationImpl G F) (ki : ArenaIndexImpl K G F)
    (a : GenericSparseArena T G) (v : T) :
    a.insert gi ki v = a.insertWith gi ki (fun _ => v) := by
  unfold GenericSparseArena.insert GenericSparseArena.insertWith
    GenericSparseArena.vacantPrep GenericSparseArena.reserveVacantSlotSlow
  by_cases h : a.free_list_head = a.slots.length
  · simp only [h, eq_self_iff_true, if_true, List.getD_eq_getElem?_getD,
      List.getElem?_concat_length, Option.getD_some, set_append_length]
    rfl
  · simp only [if_neg h]

/-- **C10.** For every sparse arena state and every value `v`,
`insert(v)` — including its specialized push fast path taken when
`free_list_head` equals the slot array length, directly pushing an
already-filled slot — returns the same key and leaves the arena in the
same state (same slots, generations and `free_list_head`) as
`insert_with(|_| v)`, which goes through `vacant_slot`. -/
theorem insert_fast_path_equiv {T G F K : Type}
    (gi : GenerationImpl G F) (ki : ArenaIndexImpl K G F)
    (a : GenericSparseArena T G) (v : T) :
    a.insert gi ki v = a.insertWith gi ki (fun _ => v) :=
  insert_eq_insertWith gi ki a v

/-! ### C7: bit representation of the `prim!` generation policies -/

/-- **C7.** For every bit-width-parameterized generation policy
(saturating `g8`..`g128`/`gsize` and wrapping `gw8`..`gw128`/`gwsize`,
i.e. `satGen bits` and `wrapGen bits` with `bits ≥ 1`): a generation is
empty iff its integer is even and filled iff odd; `EMPTY` is `0`; `fill`
is `self.0 | 1` (the successor on an empty generation); saturating
`try_empty` adds `1` with an overflow check, failing exactly on the
width's maximum value — which is odd; wrapping `try_empty` adds `1` with
wraparound and never fails; `to_filled` reinterprets the odd value as a
(non-zero) marker unchanged; and `matches` is exactly integer equality
between the live generation and the key's snapshot. -/
theorem prim_generation_representation (bits : Nat) (hb : 1 ≤ bits) :
    (satGen bits).EMPTY = 0 ∧ (wrapGen bits).EMPTY = 0
    ∧ (∀ v : Nat, ((satGen bits).isEmpty v = true ↔ v % 2 = 0)
        ∧ ((satGen bits).isFilled v = true ↔ v % 2 = 1)
        ∧ (wrapGen bits).isEmpty v = (satGen bits).isEmpty v)
    ∧ (∀ v : Nat, (satGen bits).fill v = v ||| 1
        ∧ (wrapGen bits).fill v = v ||| 1
        ∧ (v % 2 = 0 → (satGen bits).fill v = v + 1))
    ∧ (∀ v : Nat, v < 2 ^ bits →
        (((satGen bits).tryEmpty v = none) ↔ v = 2 ^ bits - 1)
        ∧ (v ≠ 2 ^ bits - 1 → (satGen bits).tryEmpty v = some (v + 1)))
    ∧ (2 ^ bits - 1) % 2 = 1
    ∧ (∀ v : Nat, (wrapGen bits).tryEmpty v = some ((v + 1) % 2 ^ bits))
    ∧ (∀ v : Nat, v % 2 = 1 → (satGen bits).toFilled v = v ∧ v ≠ 0
        ∧ (wrapGen bits).toFilled v = v)
    ∧ (∀ v f : Nat, ((satGen bits).gmatches v f = true ↔ v = f)
        ∧ (wrapGen bits).gmatches v f = (satGen bits).gmatches v f) := by
  have hpow : 1 ≤ 2 ^ bits := Nat.one_le_two_pow
  have hpow2 : 2 ≤ 2 ^ bits := by
    calc 2 = 2 ^ 1 := rfl
    _ ≤ 2 ^ bits := Nat.pow_le_pow_right (by omega) hb
  have hsub : 2 ^ bits - 1 + 1 = 2 ^ bits := Nat.succ_pred_eq_of_pos hpow
  refine ⟨rfl, rfl, ?_, ?_, ?_, ?_, ?_, ?_, ?_⟩
  · intro v
    refine ⟨by simp [satGen], ?_, rfl⟩
    simp only [GenerationImpl.isFilled, satGen, Bool.not_eq_true',
      decide_eq_false_iff_not]
    omega
  · intro v
    exact ⟨rfl, rfl, fun h => by simp [satGen, lor_one_of_even h]⟩
  · intro v hv
    constructor
    · simp only [satGen, ite_eq_right_iff, reduceCtorEq, imp_false, not_lt]
      omega
    · intro hne
      simp only [satGen, if_pos (show v + 1 < 2 ^ bits by omega)]
  · -- 2 ^ bits is even for bits ≥ 1, so the maximum value is odd
    have : 2 ^ bits % 2 = 0 := by
      have : 2 ^ bits = 2 * 2 ^ (bits - 1) := by
        rw [← pow_succ']
        congr 1
        omega
      omega
    omega
  · intro v; rfl
  · intro v hv
    refine ⟨rfl, by omega, rfl⟩
  · intro v f
    exact ⟨by simp [satGen], rfl⟩

/-- Witness for C7 at the 8-bit width (`g8`/`gw8`). -/
theorem prim_generation_representation_witness :
    1 ≤ 8 ∧
    ((satGen 8).EMPTY = 0 ∧ (wrapGen 8).EMPTY = 0
    ∧ (∀ v : Nat, ((satGen 8).isEmpty v = true ↔ v % 2 = 0)
        ∧ ((satGen 8).isFilled v = true ↔ v % 2 = 1)
        ∧ (wrapGen 8).isEmpty v = (satGen 8).isEmpty v)
    ∧ (∀ v : Nat, (satGen 8).fill v = v ||| 1
        ∧ (wrapGen 8).fill v = v ||| 1
        ∧ (v % 2 = 0 → (satGen 8).fill v = v + 1))
    ∧ (∀ v : Nat, v < 2 ^ 8 →
        (((satGen 8).tryEmpty v = none) ↔ v = 2 ^ 8 - 1)
        ∧ (v ≠ 2 ^ 8 - 1 → (satGen 8).tryEmpty v = some (v + 1)))
    ∧ (2 ^ 8 - 1) % 2 = 1
    ∧ (∀ v : Nat, (wrapGen 8).tryEmpty v = some ((v + 1) % 2 ^ 8))
    ∧ (∀ v : Nat, v % 2 = 1 → (satGen 8).toFilled v = v ∧ v ≠ 0
        ∧ (wrapGen 8).toFilled v = v)
    ∧ (∀ v f : Nat, ((satGen 8).gmatches v f = true ↔ v = f)
        ∧ (wrapGen 8).gmatches v f = (satGen 8).gmatches v f)) :=
  ⟨by decide, prim_generation_representation 8 (by decide)⟩

/-! ### C8: invalid-key error handling is side-effect free and idempotent -/

/-- **C8.** For every arena and every key that is out of bounds or whose
generation snapshot does not match the slot's live generation,
`try_remove` and `get` return `None` and leave the arena unchanged; in
particular calling `try_remove` twice with the same stale key returns
`None` both times without corrupting state, while the non-`try` `remove`
and the `Index` accessor panic (modelled as `none`) on the same keys. -/
theorem invalid_key_accessors_noop {T G F K : Type}
    (gi : GenerationImpl G F) (ki : ArenaIndexImpl K G F)
    (a : GenericSparseArena T G) (k : K)
    (h : ∀ s, a.slots[ki.toIndex k]? = some s →
      ki.matchesGeneration k s.generation = false) :
    a.tryRemove gi ki k = (none, a)
    ∧ ((a.tryRemove gi ki k).2).tryRemove gi ki k = (none, a)
    ∧ a.remove gi ki k = none
    ∧ a.get gi ki k = none
    ∧ a.indexAt gi ki k = none := by
  have h1 : a.tryRemove gi ki k = (none, a) := by
    unfold GenericSparseArena.tryRemove
    rcases hv : a.slots[ki.toIndex k]? with _ | s
    · simp [hv]
    · simp [hv, h s hv]
  refine ⟨h1, by rw [h1]; exact h1, ?_, ?_, ?_⟩
  · unfold GenericSparseArena.remove
    rcases hv : a.slots[ki.toIndex k]? with _ | s
    · simp [hv]
    · simp [hv, h s hv]
  · unfold GenericSparseArena.get
    rcases hv : a.slots[ki.toIndex k]? with _ | s
    · simp [hv]
    · simp [hv, h s hv]
  · unfold GenericSparseArena.indexAt GenericSparseArena.get
    rcases hv : a.slots[ki.toIndex k]? with _ | s
    · simp [hv]
    · simp [hv, h s hv]

/-- Witness for C8: a one-element `g32`-style arena probed with a stale
`ArenaKey` whose snapshot (`3`) differs from the slot's live generation
(`1`), and with an out-of-bounds plain index. -/
theorem invalid_key_accessors_noop_witness :
    (∀ s : Slot Nat Nat,
      ([Slot.filled 1 42] : List (Slot Nat Nat))[(1 : Nat)]? = some s →
      (usizeKI (satGen 32)).matchesGeneration 1 s.generation = false)
    ∧ ((⟨1, [Slot.filled 1 42]⟩ : GenericSparseArena Nat Nat).tryRemove
        (satGen 32) (usizeKI (satGen 32)) 1
        = (none, ⟨1, [Slot.filled 1 42]⟩)) := by
  have hyp : ∀ s : Slot Nat Nat,
      ([Slot.filled 1 42] : List (Slot Nat Nat))[(usizeKI (satGen 32)).toIndex 1]? = some s →
      (usizeKI (satGen 32)).matchesGeneration 1 s.generation = false := by
    intro s hs
    simp [usizeKI] at hs
  refine ⟨fun s hs => hyp s hs, ?_⟩
  exact (invalid_key_accessors_noop (satGen 32) (usizeKI (satGen 32))
    ⟨1, [Slot.filled 1 42]⟩ 1 hyp).1

/-! ### C6: free-list LIFO reuse -/

/-- **C6.** If slot `S` is freed by a successful removal (one whose
`try_empty` succeeds, so the slot is relinked into the free list) and
then another slot `T ≠ S` is freed the same way, with no intervening
operation, then the next insertion fills `T`'s slot (most-recently-freed
first): the minted key carries index `T`, `T`'s slot is filled with the
new value, `S`'s slot is still empty, and the free-list head now points
at `S` (so `S` is reused next). -/
theorem free_list_lifo {T G F : Type}
    (gi : GenerationImpl G F) (a : GenericSparseArena T G)
    (kS kT : ArenaKey F) (v vS vT : T) (gS gT gS' gT' : G)
    (aS aT : GenericSparseArena T G)
    (hS : a.slots[kS.index]? = some (.filled gS vS))
    (hmS : gi.gmatches gS kS.generation = true)
    (heS : gi.tryEmpty gS = some gS')
    (hSstate : a.tryRemove gi (arenaKeyKI gi) kS = (some vS, aS))
    (hT : aS.slots[kT.index]? = some (.filled gT vT))
    (hmT : gi.gmatches gT kT.generation = true)
    (heT : gi.tryEmpty gT = some gT')
    (hTstate : aS.tryRemove gi (arenaKeyKI gi) kT = (some vT, aT))
    (hne : kS.index ≠ kT.index) :
    ((aT.insert gi (arenaKeyKI gi) v).1).index = kT.index
    ∧ (aT.insert gi (arenaKeyKI gi) v).2.slots[kT.index]?
        = some (.filled (gi.fill gT') v)
    ∧ (aT.insert gi (arenaKeyKI gi) v).2.slots[kS.index]?
        = some (.empty gS' a.free_list_head)
    ∧ (aT.insert gi (arenaKeyKI gi) v).2.free_list_head = kS.index := by
  -- compute the state after freeing S
  have hSlt : kS.index < a.slots.length := by
    have := List.getElem?_eq_some_iff.mp hS
    exact this.1
  have haS : aS = ⟨kS.index, a.slots.set kS.index (.empty gS' a.free_list_head)⟩ := by
    have := hSstate
    unfold GenericSparseArena.tryRemove at this
    simp only [arenaKeyKI, hS, Slot.generation] at this
    rw [if_pos hmS] at this
    unfold GenericSparseArena.removeStep at this
    rw [heS] at this
    exact (Prod.mk.injEq _ _ _ _).mp this |>.2.symm
  have hTlt : kT.index < aS.slots.length := (List.getElem?_eq_some_iff.mp hT).1
  have haT : aT = ⟨kT.index, aS.slots.set kT.index (.empty gT' aS.free_list_head)⟩ := by
    have := hTstate
    unfold GenericSparseArena.tryRemove at this
    simp only [arenaKeyKI, hT, Slot.generation] at this
    rw [if_pos hmT] at this
    unfold GenericSparseArena.removeStep at this
    rw [heT] at this
    exact (Prod.mk.injEq _ _ _ _).mp this |>.2.symm
  -- after freeing T, the head is T and T's slot links back to S
  have hheadT : aT.free_list_head = kT.index := by rw [haT]
  have hlenT : aT.slots.length = aS.slots.length := by
    rw [haT]; simp
  have hTslot : aT.slots[kT.index]? = some (.empty gT' aS.free_list_head) := by
    rw [haT]
    exact List.getElem?_set_self (by simpa using hTlt)
  have hSslot : aT.slots[kS.index]? = some (.empty gS' a.free_list_head) := by
    rw [haT]
    simp only [GenericSparseArena.mk.injEq]
    rw [List.getElem?_set_ne (fun h => hne h.symm), haS]
    exact List.getElem?_set_self (by simpa using hSlt)
  -- the insertion takes the non-growing path and fills T
  have hTltT : kT.index < aT.slots.length := by rw [hlenT]; exact hTlt
  have hne2 : aT.free_list_head ≠ aT.slots.length := by
    rw [hheadT]; omega
  rw [insert_eq_insertWith]
  unfold GenericSparseArena.insertWith GenericSparseArena.vacantPrep
  simp only [if_neg hne2]
  have hgetD : aT.slots.getD aT.free_list_head (Slot.empty gi.EMPTY 0)
      = Slot.empty gT' aS.free_list_head := by
    rw [List.getD_eq_getElem?_getD, hheadT, hTslot]; rfl
  rw [hgetD]
  have hheadS : aS.free_list_head = kS.index := by rw [haS]
  refine ⟨by simp [arenaKeyKI, hheadT], ?_, ?_, by simp [Slot.nextEmptyD, hheadS]⟩
  · simp only [Slot.generation, Slot.nextEmptyD]
    rw [hheadT]
    exact List.getElem?_set_self (by simpa using hTltT)
  · simp only [Slot.generation, Slot.nextEmptyD]
    rw [hheadT, List.getElem?_set_ne hne.symm]
    exact hSslot

/-- Witness for C6: a two-element `g8` arena; slot 0 is freed, then slot
1; the next insertion fills slot 1 and leaves slot 0 at the head. -/
theorem free_list_lifo_witness :
    (((⟨2, [Slot.filled 1 10, Slot.filled 1 11]⟩ :
        GenericSparseArena Nat Nat).slots[(0 : Nat)]? = some (.filled 1 10))
    ∧ (satGen 8).gmatches 1 1 = true
    ∧ (satGen 8).tryEmpty 1 = some 2
    ∧ (GenericSparseArena.tryRemove (satGen 8) (arenaKeyKI (satGen 8))
        ⟨2, [Slot.filled 1 10, Slot.filled 1 11]⟩ ⟨0, 1⟩
        = (some 10, ⟨0, [Slot.empty 2 2, Slot.filled 1 11]⟩))
    ∧ ((⟨0, [Slot.empty 2 2, Slot.filled 1 11]⟩ :
        GenericSparseArena Nat Nat).slots[(1 : Nat)]? = some (.filled 1 11))
    ∧ (GenericSparseArena.tryRemove (satGen 8) (arenaKeyKI (satGen 8))
        ⟨0, [Slot.empty 2 2, Slot.filled 1 11]⟩ ⟨1, 1⟩
        = (some 11, ⟨1, [Slot.empty 2 2, Slot.empty 2 0]⟩))
    ∧ (0 : Nat) ≠ 1)
    ∧ (((GenericSparseArena.insert (satGen 8) (arenaKeyKI (satGen 8))
          (⟨1, [Slot.empty 2 2, Slot.empty 2 0]⟩ :
            GenericSparseArena Nat Nat) 12).1).index = 1
      ∧ (GenericSparseArena.insert (satGen 8) (arenaKeyKI (satGen 8))
          (⟨1, [Slot.empty 2 2, Slot.empty 2 0]⟩ :
            GenericSparseArena Nat Nat) 12).2.slots[(1 : Nat)]?
          = some (.filled ((satGen 8).fill 2) 12)
      ∧ (GenericSparseArena.insert (satGen 8) (arenaKeyKI (satGen 8))
          (⟨1, [Slot.empty 2 2, Slot.empty 2 0]⟩ :
            GenericSparseArena Nat Nat) 12).2.slots[(0 : Nat)]?
          = some (.empty 2 2)
      ∧ (GenericSparseArena.insert (satGen 8) (arenaKeyKI (satGen 8))
          (⟨1, [Slot.empty 2 2, Slot.empty 2 0]⟩ :
            GenericSparseArena Nat Nat) 12).2.free_list_head = 0) :=
  ⟨⟨by decide, by decide, by decide, by decide, by decide, by decide, by decide⟩,
    free_list_lifo (satGen 8) ⟨2, [Slot.filled 1 10, Slot.filled 1 11]⟩
      ⟨0, 1⟩ ⟨1, 1⟩ 12 10 11 1 1 2 2
      ⟨0, [Slot.empty 2 2, Slot.filled 1 11]⟩
      ⟨1, [Slot.empty 2 2, Slot.empty 2 0]⟩
      (by decide) (by decide) (by decide) (by decide) (by decide) (by decide)
      (by decide) (by decide) (by decide)⟩

/-! ### Properties of the free chain -/

theorem freeChain_mem_empty {slots : List (Slot T G)} {h : Nat} {fl : List Nat}
    (hch : FreeChain slots h fl) :
    ∀ j ∈ fl, ∃ g n, slots[j]? = some (Slot.empty g n) := by
  induction hch with
  | nil => intro j hj; cases hj
  | cons g hi hc ih =>
    intro j hj
    rcases List.mem_cons.mp hj with rfl | hj
    · exact ⟨_, _, hi⟩
    · exact ih j hj

theorem freeChain_det {slots : List (Slot T G)} {h : Nat} {fl fl' : List Nat}
    (h1 : FreeChain slots h fl) (h2 : FreeChain slots h fl') : fl = fl' := by
  induction h1 generalizing fl' with
  | nil =>
    cases h2 with
    | nil => rfl
    | cons g hi hc =>
      have := (List.getElem?_eq_some_iff.mp hi).1
      omega
  | cons g hi hc ih =>
    cases h2 with
    | nil =>
      have := (List.getElem?_eq_some_iff.mp hi).1
      omega
    | cons g' hi' hc' =>
      rw [hi] at hi'
      cases hi'
      rw [ih hc']

theorem freeChain_suffix {slots : List (Slot T G)} {h : Nat} {fl : List Nat}
    (hch : FreeChain slots h fl) :
    ∀ j ∈ fl, ∃ tl, FreeChain slots j (j :: tl) ∧ (j :: tl).length ≤ fl.length := by
  induction hch with
  | nil => intro j hj; cases hj
  | cons g hi hc ih =>
    intro j hj
    rcases List.mem_cons.mp hj with rfl | hj
    · exact ⟨_, .cons g hi hc, le_refl _⟩
    · rcases ih j hj with ⟨tl, hch', hlen⟩
      exact ⟨tl, hch', Nat.le_succ_of_le hlen⟩

theorem freeChain_cons_not_mem {slots : List (Slot T G)} {i : Nat} {tl : List Nat}
    (hch : FreeChain slots i (i :: tl)) : i ∉ tl := by
  intro hmem
  cases hch with
  | cons g hi hc =>
    rcases freeChain_suffix hc i hmem with ⟨tl', hch', hlen⟩
    have := freeChain_det (FreeChain.cons g hi hc) hch'
    rw [← this] at hlen
    simp at hlen

/-- No chain starts at a slot whose link points at itself (a retired
slot): the chain would never reach the end of the array. -/
theorem freeChain_no_selfloop {slots : List (Slot T G)} {j : Nat} {g : G}
    (hj : slots[j]? = some (Slot.empty g j)) :
    ∀ fl, ¬ FreeChain slots j fl := by
  intro fl
  induction fl with
  | nil =>
    intro h
    cases h with
    | nil =>
      have := (List.getElem?_eq_some_iff.mp hj).1
      omega
  | cons x tl ih =>
    intro h
    cases h with
    | cons g2 hi hc =>
      rw [hj] at hi
      cases hi
      exact ih hc

/-- A retired (self-linked) slot is never on the free chain. -/
theorem freeChain_selfloop_not_mem {slots : List (Slot T G)} {h j : Nat}
    {fl : List Nat} {g : G} (hch : FreeChain slots h fl)
    (hj : slots[j]? = some (Slot.empty g j)) : j ∉ fl := by
  intro hmem
  rcases freeChain_suffix hch j hmem with ⟨tl, hch', _⟩
  exact freeChain_no_selfloop hj _ hch'

/-- Setting a slot that is not on the chain preserves the chain. -/
theorem freeChain_set {slots : List (Slot T G)} {h : Nat} {fl : List Nat}
    (hch : FreeChain slots h fl) (j : Nat) (s' : Slot T G) (hj : j ∉ fl) :
    FreeChain (slots.set j s') h fl := by
  induction hch with
  | nil =>
    have : (slots.set j s').length = slots.length := by simp
    rw [← this]
    exact .nil
  | cons g hi hc ih =>
    refine .cons g ?_ (ih (fun hm => hj (List.mem_cons_of_mem _ hm)))
    rw [List.getElem?_set_ne]
    · exact hi
    · intro rfl_eq
      exact hj (rfl_eq ▸ List.mem_cons_self _ _)

/-! ### Preservation of the representation invariant -/

theorem swf_new (gi : GenerationImpl G F) : SWF gi (GenericSparseArena.new (T := T)) := by
  refine ⟨?_, [], ?_, ?_⟩
  · intro i s hs
    simp [GenericSparseArena.new] at hs
  · exact FreeChain.nil
  · intro i g n hs
    simp [GenericSparseArena.new] at hs

/-- A chain rooted at the one-past-the-end index is empty. -/
theorem freeChain_at_length {slots : List (Slot T G)} {fl : List Nat}
    (h : FreeChain slots slots.length fl) : fl = [] :=
  freeChain_det h FreeChain.nil

/-- Inversion principle for `FreeChain`. -/
theorem freeChain_cases {slots : List (Slot T G)} {h : Nat} {fl : List Nat}
    (hch : FreeChain slots h fl) :
    (h = slots.length ∧ fl = [])
    ∨ (∃ g n tl, fl = h :: tl ∧ slots[h]? = some (Slot.empty g n)
        ∧ FreeChain slots n tl) := by
  cases hch with
  | nil => exact Or.inl ⟨rfl, rfl⟩
  | cons g hi hc => exact Or.inr ⟨_, _, _, rfl, hi, hc⟩

theorem swf_head_lt {gi : GenerationImpl G F} {a : GenericSparseArena T G}
    (hwf : SWF gi a) (hne : a.free_list_head ≠ a.slots.length) :
    a.free_list_head < a.slots.length := by
  rcases hwf.2 with ⟨fl, hch, _⟩
  rcases freeChain_cases hch with ⟨heq, _⟩ | ⟨g, n, tl, _, hi, _⟩
  · exact absurd heq hne
  · exact (List.getElem?_eq_some_iff.mp hi).1

theorem freeChain_nil_of_len {slots : List (Slot T G)} {n : Nat}
    (h : n = slots.length) : FreeChain slots n [] := by
  subst h
  exact FreeChain.nil

theorem swf_vacantPrep {gi : GenerationImpl G F} (laws : GenLaws gi)
    {a : GenericSparseArena T G} (hwf : SWF gi a) :
    SWF gi (a.vacantPrep gi)
    ∧ (a.vacantPrep gi).free_list_head < (a.vacantPrep gi).slots.length := by
  unfold GenericSparseArena.vacantPrep GenericSparseArena.reserveVacantSlotSlow
  by_cases h : a.free_list_head = a.slots.length
  · simp only [h, eq_self_iff_true, if_true]
    rcases hwf with ⟨hpar, fl, hch, hmem⟩
    rw [h] at hch
    have hfl : fl = [] := freeChain_at_length hch
    subst hfl
    have hgetl : (a.slots ++ [Slot.empty gi.EMPTY (a.slots.length + 1)])[a.slots.length]?
        = some (Slot.empty gi.EMPTY (a.slots.length + 1)) :=
      List.getElem?_concat_length _ _
    have hchain : FreeChain (a.slots ++ [Slot.empty gi.EMPTY (a.slots.length + 1)])
        a.slots.length [a.slots.length] :=
      FreeChain.cons gi.EMPTY hgetl (freeChain_nil_of_len (by simp))
    refine ⟨⟨?_, [a.slots.length], hchain, ?_⟩, ?_⟩
    · intro i s hs
      rcases Nat.lt_or_ge i a.slots.length with hlt | hge
      · rw [List.getElem?_append_left hlt] at hs
        exact hpar i s hs
      · rcases Nat.eq_or_lt_of_le hge with rfl | hgt
        · rw [hgetl] at hs
          cases hs
          simpa [Slot.generation, Slot.isFilledSlot] using laws.empty_isEmpty
        · rw [List.getElem?_eq_none (by simpa using hgt)] at hs
          cases hs
    · intro i g n hs
      rcases Nat.lt_or_ge i a.slots.length with hlt | hge
      · rw [List.getElem?_append_left hlt] at hs
        rcases hmem i g n hs with hin | hself
        · cases hin
        · exact Or.inr hself
      · rcases Nat.eq_or_lt_of_le hge with rfl | hgt
        · exact Or.inl (List.mem_singleton.mpr rfl)
        · rw [List.getElem?_eq_none (by simpa using hgt)] at hs
          cases hs
    · simp
  · simp only [if_neg h]
    exact ⟨hwf, swf_head_lt hwf h⟩

theorem swf_insertWith {gi : GenerationImpl G F} (laws : GenLaws gi)
    (ki : ArenaIndexImpl K G F) {a : GenericSparseArena T G}
    (hwf : SWF gi a) (f : K → T) :
    SWF gi (a.insertWith gi ki f).2 := by
  obtain ⟨hwf1, hlt1⟩ := swf_vacantPrep laws hwf
  set a1 := a.vacantPrep gi with ha1
  rcases hwf1 with ⟨hpar1, fl, hch, hmem⟩
  rcases freeChain_cases hch with ⟨heq, _⟩ | ⟨g, n, tl, rfl, hi, hc⟩
  · omega
  · have hne : a1.free_list_head ∉ tl :=
      freeChain_cons_not_mem (FreeChain.cons g hi hc)
    have hgetD : a1.slots.getD a1.free_list_head (Slot.empty gi.EMPTY 0)
        = Slot.empty g n := by
      rw [List.getD_eq_getElem?_getD, hi]; rfl
    have hsnd : (a.insertWith gi ki f).2
        = ⟨n, a1.slots.set a1.free_list_head
            (Slot.filled (gi.fill g)
              (f (ki.new a1.free_list_head (gi.toFilled (gi.fill g)))))⟩ := by
      unfold GenericSparseArena.insertWith
      rw [← ha1]
      simp only [hgetD, Slot.generation, Slot.nextEmptyD]
    rw [hsnd]
    have hparg : gi.isEmpty g = true := by
      have := hpar1 _ _ hi
      simpa [Slot.generation, Slot.isFilledSlot] using this
    refine ⟨?_, tl, ?_, ?_⟩
    · intro i s hs
      by_cases hii : i = a1.free_list_head
      · subst hii
        rw [List.getElem?_set_self (by simpa using hlt1)] at hs
        cases hs
        simpa [Slot.generation, Slot.isFilledSlot] using laws.fill_not_isEmpty g hparg
      · rw [List.getElem?_set_ne (fun hh => hii hh.symm)] at hs
        exact hpar1 i s hs
    · exact freeChain_set hc _ _ hne
    · intro i gg nn hs
      by_cases hii : i = a1.free_list_head
      · subst hii
        rw [List.getElem?_set_self (by simpa using hlt1)] at hs
        cases hs
      · rw [List.getElem?_set_ne (fun hh => hii hh.symm)] at hs
        rcases hmem i gg nn hs with hin | hself
        · rcases List.mem_cons.mp hin with rfl | hin2
          · exact absurd rfl hii
          · exact Or.inl hin2
        · exact Or.inr hself

theorem removeStateAt_none {gi : GenerationImpl G F} {a : GenericSparseArena T G}
    {i : Nat} (h : a.slots[i]? = none) : a.removeStateAt gi i = a := by
  unfold GenericSparseArena.removeStateAt
  simp only [h]

theorem removeStateAt_empty {gi : GenerationImpl G F} {a : GenericSparseArena T G}
    {i n : Nat} {g : G} (h : a.slots[i]? = some (Slot.empty g n)) :
    a.removeStateAt gi i = a := by
  unfold GenericSparseArena.removeStateAt
  simp only [h]

theorem removeStateAt_relink {gi : GenerationImpl G F} {a : GenericSparseArena T G}
    {i : Nat} {g g' : G} {v : T} (h : a.slots[i]? = some (Slot.filled g v))
    (he : gi.tryEmpty g = some g') :
    a.removeStateAt gi i = ⟨i, a.slots.set i (Slot.empty g' a.free_list_head)⟩ := by
  unfold GenericSparseArena.removeStateAt
  simp only [h, he]

theorem removeStateAt_retire {gi : GenerationImpl G F} {a : GenericSparseArena T G}
    {i : Nat} {g : G} {v : T} (h : a.slots[i]? = some (Slot.filled g v))
    (he : gi.tryEmpty g = none) :
    a.removeStateAt gi i
      = ⟨a.free_list_head, a.slots.set i (Slot.empty gi.EMPTY i)⟩ := by
  unfold GenericSparseArena.removeStateAt
  simp only [h, he]

theorem setValueAt_filled {a : GenericSparseArena T G} {i : Nat} {g : G} {w : T}
    (h : a.slots[i]? = some (Slot.filled g w)) (v : T) :
    a.setValueAt i v = ⟨a.free_list_head, a.slots.set i (Slot.filled g v)⟩ := by
  unfold GenericSparseArena.setValueAt
  simp only [h]

theorem setValueAt_not_filled {a : GenericSparseArena T G} {i : Nat} (v : T)
    (h : ∀ g w, a.slots[i]? ≠ some (Slot.filled g w)) :
    a.setValueAt i v = a := by
  unfold GenericSparseArena.setValueAt
  rcases hs : a.slots[i]? with _ | s
  · rfl
  · cases s with
    | filled g w => exact absurd hs (h g w)
    | empty g n => rfl

theorem swf_removeStateAt {gi : GenerationImpl G F} (laws : GenLaws gi)
    {a : GenericSparseArena T G} (hwf : SWF gi a) (i : Nat) :
    SWF gi (a.removeStateAt gi i) := by
  rcases hs : a.slots[i]? with _ | s
  · rw [removeStateAt_none hs]
    exact hwf
  · cases s with
    | empty g n =>
      rw [removeStateAt_empty hs]
      exact hwf
    | filled g v =>
      rcases hwf with ⟨hpar, fl, hch, hmem⟩
      have hilt : i < a.slots.length := (List.getElem?_eq_some_iff.mp hs).1
      have hnotmem : i ∉ fl := by
        intro hmem2
        rcases freeChain_mem_empty hch i hmem2 with ⟨g2, n2, hs2⟩
        rw [hs] at hs2
        cases hs2
      have hginfo : gi.isEmpty g = false := by
        have := hpar _ _ hs
        simpa [Slot.generation, Slot.isFilledSlot] using this
      rcases he : gi.tryEmpty g with _ | g'
      · -- retirement: generation EMPTY, link to itself, head untouched
        rw [removeStateAt_retire hs he]
        refine ⟨?_, fl, freeChain_set hch _ _ hnotmem, ?_⟩
        · intro j s hs2
          by_cases hij : j = i
          · subst hij
            rw [List.getElem?_set_self (by simpa using hilt)] at hs2
            cases hs2
            simpa [Slot.generation, Slot.isFilledSlot] using laws.empty_isEmpty
          · rw [List.getElem?_set_ne (fun hh => hij hh.symm)] at hs2
            exact hpar j s hs2
        · intro j gg nn hs2
          by_cases hij : j = i
          · subst hij
            rw [List.getElem?_set_self (by simpa using hilt)] at hs2
            cases hs2
            exact Or.inr rfl
          · rw [List.getElem?_set_ne (fun hh => hij hh.symm)] at hs2
            exact hmem j gg nn hs2
      · -- relink at the head of the free list
        rw [removeStateAt_relink hs he]
        refine ⟨?_, i :: fl, ?_, ?_⟩
        · intro j s hs2
          by_cases hij : j = i
          · subst hij
            rw [List.getElem?_set_self (by simpa using hilt)] at hs2
            cases hs2
            simpa [Slot.generation, Slot.isFilledSlot] using
              laws.tryEmpty_isEmpty g g' hginfo he
          · rw [List.getElem?_set_ne (fun hh => hij hh.symm)] at hs2
            exact hpar j s hs2
        · refine FreeChain.cons g' ?_ (freeChain_set hch _ _ hnotmem)
          rw [List.getElem?_set_self (by simpa using hilt)]
        · intro j gg nn hs2
          by_cases hij : j = i
          · subst hij
            exact Or.inl (List.mem_cons_self _ _)
          · rw [List.getElem?_set_ne (fun hh => hij hh.symm)] at hs2
            rcases hmem j gg nn hs2 with hin | hself
            · exact Or.inl (List.mem_cons_of_mem _ hin)
            · exact Or.inr hself

theorem swf_setValueAt {gi : GenerationImpl G F}
    {a : GenericSparseArena T G} (hwf : SWF gi a) (i : Nat) (v : T) :
    SWF gi (a.setValueAt i v) := by
  rcases hs : a.slots[i]? with _ | s
  · rw [setValueAt_not_filled v (by simp [hs])]
    exact hwf
  · cases s with
    | empty g n =>
      rw [setValueAt_not_filled v (by simp [hs])]
      exact hwf
    | filled g w =>
      rw [setValueAt_filled hs v]
      rcases hwf with ⟨hpar, fl, hch, hmem⟩
      have hilt : i < a.slots.length := (List.getElem?_eq_some_iff.mp hs).1
      have hnotmem : i ∉ fl := by
        intro hmem2
        rcases freeChain_mem_empty hch i hmem2 with ⟨g2, n2, hs2⟩
        rw [hs] at hs2
        cases hs2
      refine ⟨?_, fl, freeChain_set hch _ _ hnotmem, ?_⟩
      · intro j s hs2
        by_cases hij : j = i
        · subst hij
          rw [List.getElem?_set_self (by simpa using hilt)] at hs2
          cases hs2
          have := hpar _ _ hs
          simpa [Slot.generation, Slot.isFilledSlot] using this
        · rw [List.getElem?_set_ne (fun hh => hij hh.symm)] at hs2
          exact hpar j s hs2
      · intro j gg nn hs2
        by_cases hij : j = i
        · subst hij
          rw [List.getElem?_set_self (by simpa using hilt)] at hs2
          cases hs2
        · rw [List.getElem?_set_ne (fun hh => hij hh.symm)] at hs2
          exact hmem j gg nn hs2

theorem swf_sstep {gi : GenerationImpl G F} (laws : GenLaws gi)
    {a : GenericSparseArena T G} (hwf : SWF gi a) (op : SOp T) :
    SWF gi (sstep gi a op) := by
  cases op with
  | vacant => exact (swf_vacantPrep laws hwf).1
  | insert v => exact swf_insertWith laws _ hwf _
  | removeAt i => exact swf_removeStateAt laws hwf i
  | update i v => exact swf_setValueAt hwf i v

theorem swf_srun {gi : GenerationImpl G F} (laws : GenLaws gi)
    {a : GenericSparseArena T G} (hwf : SWF gi a) (ops : List (SOp T)) :
    SWF gi (srun gi a ops) := by
  induction ops generalizing a with
  | nil => exact hwf
  | cons op ops ih => exact ih (swf_sstep laws hwf op)

theorem swf_of_sreach {gi : GenerationImpl G F} (laws : GenLaws gi)
    {a a' : GenericSparseArena T G}
    (hwf : SWF gi a) (h : SReach gi a a') : SWF gi a' := by
  rcases h with ⟨ops, rfl⟩
  exact swf_srun laws hwf ops

theorem swf_reachable {gi : GenerationImpl G F} (laws : GenLaws gi)
    {a : GenericSparseArena T G}
    (h : SReach gi GenericSparseArena.new a) : SWF gi a :=
  swf_of_sreach laws (swf_new gi) h

/-! ### The generation laws hold for every concrete policy -/

theorem satGen_laws (bits : Nat) : GenLaws (satGen bits) := by
  refine ⟨by simp [satGen], ?_, ?_⟩
  · intro g hg
    simp only [satGen, decide_eq_true_eq] at hg
    simp only [satGen, lor_one_of_even hg, decide_eq_false_iff_not]
    omega
  · intro g g' hg he
    simp only [satGen, decide_eq_false_iff_not] at hg
    simp only [satGen] at he
    split at he
    · cases he
      simp only [satGen, decide_eq_true_eq]
      omega
    · cases he

theorem wrapGen_laws (bits : Nat) : GenLaws (wrapGen bits) := by
  refine ⟨by simp [wrapGen], ?_, ?_⟩
  · intro g hg
    simp only [wrapGen, decide_eq_true_eq] at hg
    simp only [wrapGen, lor_one_of_even hg, decide_eq_false_iff_not]
    omega
  · intro g g' hg he
    simp only [wrapGen, decide_eq_false_iff_not] at hg
    simp only [wrapGen, Option.some.injEq] at he
    subst he
    simp only [wrapGen, decide_eq_true_eq]
    rcases Nat.eq_zero_or_pos bits with rfl | hb
    · simp [Nat.mod_one]
    · have h2 : (2 : Nat) ∣ 2 ^ bits := dvd_pow_self 2 (by omega)
      rw [Nat.mod_mod_of_dvd _ h2]
      omega

theorem noGen_laws : GenLaws noGen := by
  refine ⟨rfl, ?_, ?_⟩
  · intro g _
    rfl
  · intro g g' _ he
    cases he
    rfl

/-! ### C4: the free-list invariant on all reachable arenas -/

/-- **C4.** In every `GenericSparseArena` reachable by any sequence of
operations (for any generation policy satisfying the trait contract):
`free_list_head` either equals the slot array's length (one past the
end) or indexes a slot that is currently empty; following
`next_empty_slot` from any free slot reaches another free slot or one
past the end; and when insertion grows the array
(`reserve_vacant_slot_slow`, called exactly when the head is one past
the end), the newly pushed slot's `next_empty_slot` is initialized to
one past the new end. -/
theorem free_list_invariant {T G F : Type} (gi : GenerationImpl G F)
    (laws : GenLaws gi) (a : GenericSparseArena T G)
    (hreach : SReach gi GenericSparseArena.new a) :
    (a.free_list_head = a.slots.length
      ∨ ∃ g n, a.slots[a.free_list_head]? = some (Slot.empty g n))
    ∧ (∀ (i : Nat) (g : G) (n : Nat), a.slots[i]? = some (Slot.empty g n) →
        n = a.slots.length ∨ ∃ g' n', a.slots[n]? = some (Slot.empty g' n'))
    ∧ (a.free_list_head = a.slots.length →
        (a.reserveVacantSlotSlow gi).slots[a.slots.length]?
          = some (Slot.empty gi.EMPTY (a.slots.length + 1))) := by
  have hwf := swf_reachable laws hreach
  rcases hwf with ⟨hpar, fl, hch, hmem⟩
  refine ⟨?_, ?_, ?_⟩
  · rcases freeChain_cases hch with ⟨heq, _⟩ | ⟨g, n, tl, _, hi, _⟩
    · exact Or.inl heq
    · exact Or.inr ⟨g, n, hi⟩
  · intro i g n hs
    rcases hmem i g n hs with hin | hself
    · rcases freeChain_suffix hch i hin with ⟨tl, hchi, _⟩
      cases hchi with
      | cons g2 hi2 hc2 =>
        rw [hs] at hi2
        cases hi2
        rcases freeChain_cases hc2 with ⟨heq, _⟩ | ⟨g3, n3, tl3, _, hi3, _⟩
        · exact Or.inl heq
        · exact Or.inr ⟨g3, n3, hi3⟩
    · subst hself
      exact Or.inr ⟨g, n, hs⟩
  · intro hh
    unfold GenericSparseArena.reserveVacantSlotSlow
    rw [hh]
    exact List.getElem?_concat_length _ _

/-- Witness for C4: the arena obtained by a single insertion into a
fresh `g8` arena. -/
theorem free_list_invariant_witness :
    GenLaws (satGen 8)
    ∧ SReach (satGen 8) GenericSparseArena.new
        (srun (satGen 8) GenericSparseArena.new [SOp.insert (5 : Nat)])
    ∧ (((srun (satGen 8) GenericSparseArena.new
          [SOp.insert (5 : Nat)]).free_list_head
        = (srun (satGen 8) GenericSparseArena.new
            [SOp.insert (5 : Nat)]).slots.length
      ∨ ∃ g n, (srun (satGen 8) GenericSparseArena.new
          [SOp.insert (5 : Nat)]).slots[(srun (satGen 8) GenericSparseArena.new
            [SOp.insert (5 : Nat)]).free_list_head]? = some (Slot.empty g n))
    ∧ (∀ (i g n : Nat), (srun (satGen 8) GenericSparseArena.new
          [SOp.insert (5 : Nat)]).slots[i]? = some (Slot.empty g n) →
        n = (srun (satGen 8) GenericSparseArena.new
            [SOp.insert (5 : Nat)]).slots.length
        ∨ ∃ g' n', (srun (satGen 8) GenericSparseArena.new
            [SOp.insert (5 : Nat)]).slots[n]? = some (Slot.empty g' n'))
    ∧ ((srun (satGen 8) GenericSparseArena.new
          [SOp.insert (5 : Nat)]).free_list_head
        = (srun (satGen 8) GenericSparseArena.new
            [SOp.insert (5 : Nat)]).slots.length →
        ((srun (satGen 8) GenericSparseArena.new
            [SOp.insert (5 : Nat)]).reserveVacantSlotSlow (satGen 8)).slots[
          (srun (satGen 8) GenericSparseArena.new
            [SOp.insert (5 : Nat)]).slots.length]?
          = some (Slot.empty (satGen 8).EMPTY
              ((srun (satGen 8) GenericSparseArena.new
                [SOp.insert (5 : Nat)]).slots.length + 1)))) :=
  ⟨satGen_laws 8, ⟨[SOp.insert 5], rfl⟩,
    free_list_invariant (satGen 8) (satGen_laws 8) _ ⟨[SOp.insert 5], rfl⟩⟩

/-! ### Stability of retired slots (C5) -/

/-- The second component of `insert_with`, given the vacant slot at the
head. -/
theorem insertWith_snd_eq (gi : GenerationImpl G F) (ki : ArenaIndexImpl K G F)
    {a : GenericSparseArena T G} (f : K → T) {g : G} {n : Nat}
    (hi : (a.vacantPrep gi).slots[(a.vacantPrep gi).free_list_head]?
      = some (Slot.empty g n)) :
    (a.insertWith gi ki f).2
      = ⟨n, (a.vacantPrep gi).slots.set (a.vacantPrep gi).free_list_head
          (Slot.filled (gi.fill g)
            (f (ki.new (a.vacantPrep gi).free_list_head
              (gi.toFilled (gi.fill g)))))⟩ := by
  unfold GenericSparseArena.insertWith
  simp only [List.getD_eq_getElem?_getD, hi, Option.getD_some, Slot.generation,
    Slot.nextEmptyD]

/-- The key minted by `insert_with`, given the vacant slot at the
head. -/
theorem insertWith_fst_eq (gi : GenerationImpl G F) (ki : ArenaIndexImpl K G F)
    {a : GenericSparseArena T G} (f : K → T) {g : G} {n : Nat}
    (hi : (a.vacantPrep gi).slots[(a.vacantPrep gi).free_list_head]?
      = some (Slot.empty g n)) :
    (a.insertWith gi ki f).1
      = ki.new (a.vacantPrep gi).free_list_head (gi.toFilled (gi.fill g)) := by
  unfold GenericSparseArena.insertWith
  simp only [List.getD_eq_getElem?_getD, hi, Option.getD_some, Slot.generation,
    Slot.nextEmptyD]

/-- The slot targeted by one operation: a retired slot (empty, `EMPTY`
generation, linked to itself and hence never on the free chain) is
untouched by every operation. -/
theorem retired_stable_sstep {gi : GenerationImpl G F} (laws : GenLaws gi)
    {a : GenericSparseArena T G} (hwf : SWF gi a) {j : Nat}
    (hj : a.slots[j]? = some (Slot.empty gi.EMPTY j)) (op : SOp T) :
    (sstep gi a op).slots[j]? = some (Slot.empty gi.EMPTY j) := by
  have hjlt : j < a.slots.length := (List.getElem?_eq_some_iff.mp hj).1
  have hprep : (a.vacantPrep gi).slots[j]? = some (Slot.empty gi.EMPTY j) := by
    unfold GenericSparseArena.vacantPrep GenericSparseArena.reserveVacantSlotSlow
    by_cases h : a.free_list_head = a.slots.length
    · simp only [if_pos h]
      rw [List.getElem?_append_left hjlt]
      exact hj
    · simp only [if_neg h]
      exact hj
  cases op with
  | vacant => exact hprep
  | insert v =>
    obtain ⟨hwf1, hlt1⟩ := swf_vacantPrep laws hwf
    rcases hwf1 with ⟨hpar1, fl, hch, hmem⟩
    rcases freeChain_cases hch with ⟨heq, _⟩ | ⟨g, n, tl, rfl, hi, hc⟩
    · omega
    · have hsnd := insertWith_snd_eq gi (usizeKI gi) (fun _ => v) hi
      show ((a.insertWith gi (usizeKI gi) fun _ => v).2).slots[j]?
        = some (Slot.empty gi.EMPTY j)
      rw [hsnd]
      have hjne : (a.vacantPrep gi).free_list_head ≠ j := by
        intro hh
        have hnot := freeChain_selfloop_not_mem hch hprep
        rw [hh] at hnot
        exact hnot (List.mem_cons_self _ _)
      rw [List.getElem?_set_ne hjne]
      exact hprep
  | removeAt i =>
    show (a.removeStateAt gi i).slots[j]? = some (Slot.empty gi.EMPTY j)
    by_cases hij : i = j
    · subst hij
      rw [removeStateAt_empty hj]
      exact hj
    · rcases hs : a.slots[i]? with _ | s
      · rw [removeStateAt_none hs]
        exact hj
      · cases s with
        | empty g n =>
          rw [removeStateAt_empty hs]
          exact hj
        | filled g v =>
          rcases he : gi.tryEmpty g with _ | g'
          · rw [removeStateAt_retire hs he]
            rw [List.getElem?_set_ne hij]
            exact hj
          · rw [removeStateAt_relink hs he]
            rw [List.getElem?_set_ne hij]
            exact hj
  | update i v =>
    show (a.setValueAt i v).slots[j]? = some (Slot.empty gi.EMPTY j)
    by_cases hij : i = j
    · subst hij
      rw [setValueAt_not_filled v (by simp [hj])]
      exact hj
    · rcases hs : a.slots[i]? with _ | s
      · rw [setValueAt_not_filled v (by simp [hs])]
        exact hj
      · cases s with
        | empty g n =>
          rw [setValueAt_not_filled v (by simp [hs])]
          exact hj
        | filled g w =>
          rw [setValueAt_filled hs v, List.getElem?_set_ne hij]
          exact hj

theorem retired_stable_srun {gi : GenerationImpl G F} (laws : GenLaws gi)
    {a : GenericSparseArena T G} (hwf : SWF gi a) {j : Nat}
    (hj : a.slots[j]? = some (Slot.empty gi.EMPTY j)) (ops : List (SOp T)) :
    (srun gi a ops).slots[j]? = some (Slot.empty gi.EMPTY j) := by
  induction ops generalizing a with
  | nil => exact hj
  | cons op ops ih =>
    exact ih (swf_sstep laws hwf op) (retired_stable_sstep laws hwf hj op)

/-! ### C5: retirement is terminal -/

/-- **C5.** In a reachable arena, when a removal's `try_empty` fails
(the generation is exhausted), the slot's generation is set to `EMPTY`
and the slot is not relinked into the free list — `free_list_head` is
left unchanged (the slot's own link is written to point at itself) —
and thereafter no sequence of operations ever fills or reuses that slot
again: it stays exactly in the retired state for the rest of the
arena's life. -/
theorem retirement_terminal {T G F : Type} (gi : GenerationImpl G F)
    (laws : GenLaws gi) (a : GenericSparseArena T G) (k : ArenaKey F)
    (g : G) (v : T)
    (hreach : SReach gi GenericSparseArena.new a)
    (hs : a.slots[k.index]? = some (Slot.filled g v))
    (hm : gi.gmatches g k.generation = true)
    (he : gi.tryEmpty g = none) :
    a.tryRemove gi (arenaKeyKI gi) k
      = (some v,
          ⟨a.free_list_head, a.slots.set k.index (Slot.empty gi.EMPTY k.index)⟩)
    ∧ ∀ a'', SReach gi
        (⟨a.free_list_head, a.slots.set k.index (Slot.empty gi.EMPTY k.index)⟩ :
          GenericSparseArena T G) a'' →
        a''.slots[k.index]? = some (Slot.empty gi.EMPTY k.index) := by
  have hwf := swf_reachable laws hreach
  have hstep : a.tryRemove gi (arenaKeyKI gi) k
      = (some v,
          ⟨a.free_list_head,
            a.slots.set k.index (Slot.empty gi.EMPTY k.index)⟩) := by
    unfold GenericSparseArena.tryRemove GenericSparseArena.removeStep
    simp only [arenaKeyKI, hs, Slot.generation, hm, if_true, he]
  refine ⟨hstep, ?_⟩
  have hretire : a.removeStateAt gi k.index
      = ⟨a.free_list_head, a.slots.set k.index (Slot.empty gi.EMPTY k.index)⟩ :=
    removeStateAt_retire hs he
  have hwf' : SWF gi
      (⟨a.free_list_head, a.slots.set k.index (Slot.empty gi.EMPTY k.index)⟩ :
        GenericSparseArena T G) := by
    rw [← hretire]
    exact swf_removeStateAt laws hwf k.index
  have hilt : k.index < a.slots.length := (List.getElem?_eq_some_iff.mp hs).1
  have hj : (⟨a.free_list_head,
      a.slots.set k.index (Slot.empty gi.EMPTY k.index)⟩ :
        GenericSparseArena T G).slots[k.index]?
      = some (Slot.empty gi.EMPTY k.index) := by
    exact List.getElem?_set_self (by simpa using hilt)
  intro a'' hr
  rcases hr with ⟨ops, rfl⟩
  exact retired_stable_srun laws hwf' hj ops

/-- Witness for C5: a 1-bit saturating policy exhausts immediately; the
arena with one inserted element retires slot 0 on removal. -/
theorem retirement_terminal_witness :
    GenLaws (satGen 1)
    ∧ SReach (satGen 1) GenericSparseArena.new
        (srun (satGen 1) GenericSparseArena.new [SOp.insert (7 : Nat)])
    ∧ (srun (satGen 1) GenericSparseArena.new
        [SOp.insert (7 : Nat)]).slots[(0 : Nat)]? = some (Slot.filled 1 7)
    ∧ (satGen 1).gmatches 1 1 = true
    ∧ (satGen 1).tryEmpty 1 = none
    ∧ (srun (satGen 1) GenericSparseArena.new
        [SOp.insert (7 : Nat)]).tryRemove (satGen 1)
          (arenaKeyKI (satGen 1)) ⟨0, 1⟩
      = (some 7,
          ⟨(srun (satGen 1) GenericSparseArena.new
              [SOp.insert (7 : Nat)]).free_list_head,
            (srun (satGen 1) GenericSparseArena.new
              [SOp.insert (7 : Nat)]).slots.set 0 (Slot.empty (satGen 1).EMPTY 0)⟩) :=
  ⟨satGen_laws 1, ⟨[SOp.insert 7], rfl⟩, by decide, by decide, by decide,
    (retirement_terminal (satGen 1) (satGen_laws 1) _ ⟨0, 1⟩ 1 7
      ⟨[SOp.insert 7], rfl⟩ (by decide) (by decide) (by decide)).1⟩

/-! ### C9: plain-integer key semantics -/

/-- **C9.** When a reachable sparse arena is accessed with a plain
`usize` index instead of a generation-carrying `ArenaKey`, `get` returns
`Some v` iff the index is within the slot array's bounds and the slot's
generation is currently filled, with `v` the current occupant — no
generation identity is compared, so a `usize` index obtained before a
remove-and-reinsert at the same slot still succeeds and yields the new
occupant. -/
theorem usize_key_get_semantics {T G F : Type} (gi : GenerationImpl G F)
    (laws : GenLaws gi) (a : GenericSparseArena T G)
    (hreach : SReach gi GenericSparseArena.new a) (i : Nat) (v : T) :
    a.get gi (usizeKI gi) i = some v
      ↔ ∃ g, a.slots[i]? = some (Slot.filled g v) ∧ gi.isFilled g = true := by
  have hpar := (swf_reachable laws hreach).1
  unfold GenericSparseArena.get
  rcases hs : a.slots[(usizeKI gi).toIndex i]? with _ | s
  · constructor
    · intro h
      cases h
    · rintro ⟨g, hg, _⟩
      have : (usizeKI gi).toIndex i = i := rfl
      rw [this] at hs
      rw [hs] at hg
      cases hg
  · have hie : (usizeKI gi).toIndex i = i := rfl
    rw [hie] at hs
    have hparity := hpar _ _ hs
    cases s with
    | filled g w =>
      have hfill : gi.isFilled g = true := by
        simpa [Slot.isFilledSlot, Slot.generation, GenerationImpl.isFilled]
          using hparity
      constructor
      · intro h
        simp only [usizeKI, Slot.generation, hfill, if_true, Slot.value?] at h
        cases h
        exact ⟨g, hs, hfill⟩
      · rintro ⟨g2, hg2, _⟩
        rw [hs] at hg2
        cases hg2
        simp only [usizeKI, Slot.generation, hfill, if_true, Slot.value?]
    | empty g n =>
      have hfill : gi.isFilled g = false := by
        simpa [Slot.isFilledSlot, Slot.generation, GenerationImpl.isFilled]
          using hparity
      constructor
      · intro h
        simp only [usizeKI, Slot.generation, hfill] at h
        cases h
      · rintro ⟨g2, hg2, _⟩
        rw [hs] at hg2
        cases hg2

/-- Witness for C9: after remove-and-reinsert at slot 0, the plain index
`0` yields the new occupant. -/
theorem usize_key_get_semantics_witness :
    GenLaws (satGen 8)
    ∧ SReach (satGen 8) GenericSparseArena.new
        (srun (satGen 8) GenericSparseArena.new
          [SOp.insert (5 : Nat), SOp.removeAt 0, SOp.insert 6])
    ∧ ((srun (satGen 8) GenericSparseArena.new
          [SOp.insert (5 : Nat), SOp.removeAt 0, SOp.insert 6]).get (satGen 8)
            (usizeKI (satGen 8)) 0 = some 6
      ↔ ∃ g, (srun (satGen 8) GenericSparseArena.new
          [SOp.insert (5 : Nat), SOp.removeAt 0, SOp.insert 6]).slots[(0 : Nat)]?
            = some (Slot.filled g 6) ∧ (satGen 8).isFilled g = true) :=
  ⟨satGen_laws 8, ⟨_, rfl⟩,
    usize_key_get_semantics (satGen 8) (satGen_laws 8) _ ⟨_, rfl⟩ 0 6⟩

/-! ### Swap-remove list lemmas -/

theorem listSwapRemove_length {l : List α} (h : l ≠ []) (p : Nat) :
    (listSwapRemove l p).length = l.length - 1 := by
  unfold listSwapRemove
  rcases hl : l.getLast? with _ | last
  · exact absurd (List.getLast?_eq_none_iff.mp hl) h
  · simp

theorem listSwapRemove_get_ne {l : List α} {p q : Nat}
    (hq : q < l.length - 1) (hne : q ≠ p) :
    (listSwapRemove l p)[q]? = l[q]? := by
  unfold listSwapRemove
  rcases hl : l.getLast? with _ | last
  · rfl
  · show ((l.set p last).dropLast)[q]? = l[q]?
    rw [List.dropLast_eq_take]
    rw [List.getElem?_take_of_lt (by simpa using hq)]
    exact List.getElem?_set_ne (fun hh => hne hh.symm)

theorem listSwapRemove_get_at {l : List α} {p : Nat} (hp : p < l.length - 1) :
    (listSwapRemove l p)[p]? = l[l.length - 1]? := by
  unfold listSwapRemove
  rcases hl : l.getLast? with _ | last
  · have : l = [] := List.getLast?_eq_none_iff.mp hl
    subst this
    rfl
  · show ((l.set p last).dropLast)[p]? = l[l.length - 1]?
    rw [List.dropLast_eq_take]
    rw [List.getElem?_take_of_lt (by simpa using hp)]
    rw [List.getElem?_set_self (by omega)]
    rw [List.getLast?_eq_getElem?] at hl
    rw [← hl]

theorem listSwapRemove_get_ge {l : List α} {p q : Nat}
    (hq : l.length - 1 ≤ q) :
    (listSwapRemove l p)[q]? = none := by
  unfold listSwapRemove
  rcases hl : l.getLast? with _ | last
  · have : l = [] := List.getLast?_eq_none_iff.mp hl
    subst this
    rfl
  · show ((l.set p last).dropLast)[q]? = none
    apply List.getElem?_eq_none
    simpa using hq

/-! ### Characterization of successful removals -/

theorem tryRemove_some_elim {gi : GenerationImpl G F} {ki : ArenaIndexImpl K G F}
    {a a' : GenericSparseArena T G} {k : K} {v : T}
    (h : a.tryRemove gi ki k = (some v, a')) :
    ∃ g, a.slots[ki.toIndex k]? = some (Slot.filled g v)
      ∧ ki.matchesGeneration k g = true
      ∧ a' = a.removeStateAt gi (ki.toIndex k) := by
  unfold GenericSparseArena.tryRemove at h
  rcases hs : a.slots[ki.toIndex k]? with _ | s
  · simp only [hs] at h
    simp at h
  · simp only [hs] at h
    by_cases hm : ki.matchesGeneration k s.generation = true
    · rw [if_pos hm] at h
      cases s with
      | filled g w =>
        simp only [Prod.mk.injEq, Option.some.injEq] at h
        rcases h with ⟨rfl, rfl⟩
        refine ⟨g, rfl, by simpa [Slot.generation] using hm, ?_⟩
        rcases he : gi.tryEmpty g with _ | g'
        · rw [removeStateAt_retire hs he]
          unfold GenericSparseArena.removeStep
          simp only [he]
        · rw [removeStateAt_relink hs he]
          unfold GenericSparseArena.removeStep
          simp only [he]
      | empty g n =>
        simp at h
    · rw [if_neg hm] at h
      simp at h

theorem tryRemove_none_elim {gi : GenerationImpl G F} {ki : ArenaIndexImpl K G F}
    {a a' : GenericSparseArena T G} {k : K}
    (h : a.tryRemove gi ki k = (none, a')) : a' = a := by
  unfold GenericSparseArena.tryRemove at h
  rcases hs : a.slots[ki.toIndex k]? with _ | s
  · simp only [hs] at h
    exact ((Prod.mk.injEq _ _ _ _).mp h).2.symm
  · simp only [hs] at h
    by_cases hm : ki.matchesGeneration k s.generation = true
    · rw [if_pos hm] at h
      cases s with
      | filled g w => simp at h
      | empty g n => exact ((Prod.mk.injEq _ _ _ _).mp h).2.symm
    · rw [if_neg hm] at h
      exact ((Prod.mk.injEq _ _ _ _).mp h).2.symm

/-! ### Dense-tracker operations and invariant (C2) -/

theorem getElem?_concat_cases {l : List α} {e x : α} {j : Nat}
    (h : (l ++ [e])[j]? = some x) :
    l[j]? = some x ∨ (j = l.length ∧ x = e) := by
  rcases Nat.lt_trichotomy j l.length with hlt | heq | hgt
  · rw [List.getElem?_append_left hlt] at h
    exact Or.inl h
  · subst heq
    rw [List.getElem?_concat_length] at h
    cases h
    exact Or.inr ⟨rfl, rfl⟩
  · rw [List.getElem?_eq_none (by simpa using hgt)] at h
    cases h

/-- `vacant_slot` never changes which filled slots exist. -/
theorem vacantPrep_filled_iff {gi : GenerationImpl G F}
    {a : GenericSparseArena T G} {j : Nat} {g : G} {v : T} :
    (a.vacantPrep gi).slots[j]? = some (Slot.filled g v)
      ↔ a.slots[j]? = some (Slot.filled g v) := by
  unfold GenericSparseArena.vacantPrep GenericSparseArena.reserveVacantSlotSlow
  by_cases h : a.free_list_head = a.slots.length
  · simp only [if_pos h]
    constructor
    · intro hh
      rcases getElem?_concat_cases hh with hh2 | ⟨_, he⟩
      · exact hh2
      · cases he
    · intro hh
      have hlt : j < a.slots.length := (List.getElem?_eq_some_iff.mp hh).1
      rw [List.getElem?_append_left hlt]
      exact hh
  · simp only [if_neg h]

theorem removeStateAt_slots_of_filled (gi : GenerationImpl G F)
    {a : GenericSparseArena T G} {i : Nat} {g : G} {v : T}
    (hs : a.slots[i]? = some (Slot.filled g v)) :
    ∃ g2 n2, (a.removeStateAt gi i).slots = a.slots.set i (Slot.empty g2 n2) := by
  rcases he : gi.tryEmpty g with _ | g'
  · rw [removeStateAt_retire hs he]
    exact ⟨_, _, rfl⟩
  · rw [removeStateAt_relink hs he]
    exact ⟨_, _, rfl⟩

theorem twf_new (gi : GenerationImpl G F) : TWF gi GenericDenseTracker.new := by
  refine ⟨swf_new gi, ?_, ?_⟩
  · intro p j h
    simp [GenericDenseTracker.new] at h
  · intro j g p h
    simp [GenericDenseTracker.new, GenericSparseArena.new] at h

theorem twf_vacantPrep {gi : GenerationImpl G F} (laws : GenLaws gi)
    {t : GenericDenseTracker G} (hwf : TWF gi t) :
    TWF gi (t.vacantPrep gi) := by
  rcases hwf with ⟨hswf, hfwd, hrev⟩
  refine ⟨(swf_vacantPrep laws hswf).1, ?_, ?_⟩
  · intro p j h
    rcases hfwd p j h with ⟨g, hg⟩
    exact ⟨g, vacantPrep_filled_iff.mpr hg⟩
  · intro j g p h
    exact hrev j g p (vacantPrep_filled_iff.mp h)

/-- The vacant slot at the head after `vacant_slot` preparation. -/
theorem swf_vacant_slot {gi : GenerationImpl G F} (laws : GenLaws gi)
    {a : GenericSparseArena T G} (hwf : SWF gi a) :
    ∃ g n, (a.vacantPrep gi).slots[(a.vacantPrep gi).free_list_head]?
        = some (Slot.empty g n)
      ∧ (a.vacantPrep gi).free_list_head < (a.vacantPrep gi).slots.length := by
  obtain ⟨hwf1, hlt1⟩ := swf_vacantPrep laws hwf
  rcases hwf1.2 with ⟨fl, hch, _⟩
  rcases freeChain_cases hch with ⟨heq, _⟩ | ⟨g, n, tl, _, hi, _⟩
  · omega
  · exact ⟨g, n, hi, hlt1⟩

theorem twf_insert {gi : GenerationImpl G F} (laws : GenLaws gi)
    {t : GenericDenseTracker G} (hwf : TWF gi t) :
    TWF gi ((t.insertKey gi (arenaKeyKI gi)).2) := by
  rcases hwf with ⟨hswf, hfwd, hrev⟩
  obtain ⟨g, n, hi, hlt1⟩ := swf_vacant_slot laws hswf
  have hsnd := insertWith_snd_eq gi (arenaKeyKI gi) (fun _ => t.keys.length) hi
  have heq : (t.insertKey gi (arenaKeyKI gi)).2
      = ⟨t.keys ++ [(t.index.vacantPrep gi).free_list_head],
          ⟨n, (t.index.vacantPrep gi).slots.set
            (t.index.vacantPrep gi).free_list_head
            (Slot.filled (gi.fill g) t.keys.length)⟩⟩ := by
    unfold GenericDenseTracker.insertKey
    simp only []
    rw [hsnd]
  rw [heq]
  refine ⟨?_, ?_, ?_⟩
  · have hswf2 := swf_insertWith laws (arenaKeyKI gi) hswf
      (fun _ => t.keys.length)
    rw [hsnd] at hswf2
    exact hswf2
  · intro p j h
    simp only [] at h ⊢
    rcases getElem?_concat_cases h with hold | ⟨hp, hj⟩
    · rcases hfwd p j hold with ⟨g2, hg2⟩
      have hg2' : (t.index.vacantPrep gi).slots[j]?
          = some (Slot.filled g2 p) := vacantPrep_filled_iff.mpr hg2
      have hji : j ≠ (t.index.vacantPrep gi).free_list_head := by
        intro hh
        rw [hh, hi] at hg2'
        cases hg2'
      refine ⟨g2, ?_⟩
      rw [List.getElem?_set_ne (fun x => hji x.symm)]
      exact hg2'
    · subst hp
      subst hj
      refine ⟨gi.fill g, ?_⟩
      rw [List.getElem?_set_self (by simpa using hlt1)]
  · intro j g' p h
    simp only [] at h ⊢
    by_cases hji : j = (t.index.vacantPrep gi).free_list_head
    · subst hji
      rw [List.getElem?_set_self (by simpa using hlt1)] at h
      cases h
      exact List.getElem?_concat_length _ _
    · rw [List.getElem?_set_ne (fun x => hji x.symm)] at h
      have hold := vacantPrep_filled_iff.mp h
      have hkey := hrev j g' p hold
      have hplt : p < t.keys.length := (List.getElem?_eq_some_iff.mp hkey).1
      rw [List.getElem?_append_left hplt]
      exact hkey

theorem twf_tryRemove {gi : GenerationImpl G F} (laws : GenLaws gi)
    {ki : ArenaIndexImpl K G F} {t : GenericDenseTracker G} (hwf : TWF gi t)
    (k : K) : TWF gi ((t.tryRemove gi ki k).2) := by
  rcases hwf with ⟨hswf, hfwd, hrev⟩
  unfold GenericDenseTracker.tryRemove
  rcases hrm : t.index.tryRemove gi ki k with ⟨res, a'⟩
  cases res with
  | none => exact ⟨hswf, hfwd, hrev⟩
  | some p =>
    rcases tryRemove_some_elim hrm with ⟨gg, hfwd0, hm0, ha'⟩
    set i0 := ki.toIndex k with hi0
    have hkeysp : t.keys[p]? = some i0 := hrev i0 gg p hfwd0
    have hplt : p < t.keys.length := (List.getElem?_eq_some_iff.mp hkeysp).1
    have hkne : t.keys ≠ [] := by
      intro hh
      rw [hh] at hkeysp
      cases hkeysp
    rcases removeStateAt_slots_of_filled gi hfwd0 with ⟨ge, ne, hslots'⟩
    rw [← ha'] at hslots'
    have ha'swf : SWF gi a' := by
      rw [ha']
      exact swf_removeStateAt laws hswf i0
    have hempty_i0 : a'.slots[i0]? = some (Slot.empty ge ne) := by
      rw [hslots']
      exact List.getElem?_set_self
        (by simpa using (List.getElem?_eq_some_iff.mp hfwd0).1)
    have hkeylen : (listSwapRemove t.keys p).length = t.keys.length - 1 :=
      listSwapRemove_length hkne p
    -- facts about surviving forward slots
    have ha'filled : ∀ (j : Nat) (g2 : G) (q : Nat),
        a'.slots[j]? = some (Slot.filled g2 q)
        ↔ (j ≠ i0 ∧ t.index.slots[j]? = some (Slot.filled g2 q)) := by
      intro j g2 q
      constructor
      · intro hh
        by_cases hji : j = i0
        · subst hji
          rw [hempty_i0] at hh
          cases hh
        · rw [hslots', List.getElem?_set_ne (fun x => hji x.symm)] at hh
          exact ⟨hji, hh⟩
      · rintro ⟨hji, hh⟩
        rw [hslots', List.getElem?_set_ne (fun x => hji x.symm)]
        exact hh
    unfold GenericDenseTracker.removeAt
    by_cases hplast : p = t.keys.length - 1
    · -- the removed entry was the last one: no patch needed
      have hnone : (listSwapRemove t.keys p)[p]? = none := by
        apply List.getElem?_eq_none
        omega
      simp only [hnone]
      refine ⟨ha'swf, ?_, ?_⟩
      · intro q j h
        have hqlt : q < t.keys.length - 1 :=
          (List.getElem?_eq_some_iff.mp h).1.trans_eq hkeylen
        have hqp : q ≠ p := by omega
        rw [listSwapRemove_get_ne hqlt hqp] at h
        rcases hfwd q j h with ⟨g2, hg2⟩
        have hji : j ≠ i0 := by
          intro hh
          subst hh
          rw [hfwd0] at hg2
          cases hg2
          omega
        exact ⟨g2, (ha'filled j g2 q).mpr ⟨hji, hg2⟩⟩
      · intro j g2 q h
        rcases (ha'filled j g2 q).mp h with ⟨hji, hold⟩
        have hkeyq := hrev j g2 q hold
        have hqlt : q < t.keys.length := (List.getElem?_eq_some_iff.mp hkeyq).1
        have hqp : q ≠ p := by
          intro hh
          subst hh
          rw [hkeysp] at hkeyq
          cases hkeyq
          exact hji rfl
        have hqlt1 : q < t.keys.length - 1 := by omega
        rw [listSwapRemove_get_ne hqlt1 hqp]
        exact hkeyq
    · -- an entry was moved into the vacated position: patch it
      have hplt1 : p < t.keys.length - 1 := by omega
      obtain ⟨last, hlast⟩ : ∃ last, t.keys[t.keys.length - 1]? = some last := by
        rcases hx : t.keys[t.keys.length - 1]? with _ | last
        · rw [List.getElem?_eq_none_iff] at hx
          have : t.keys.length ≠ 0 := fun hh => hkne (List.length_eq_zero.mp hh)
          omega
        · exact ⟨last, rfl⟩
      have hswp : (listSwapRemove t.keys p)[p]? = some last := by
        rw [listSwapRemove_get_at hplt1]
        exact hlast
      simp only [hswp]
      rcases hfwd (t.keys.length - 1) last hlast with ⟨g3, hg3⟩
      have hlastne : last ≠ i0 := by
        intro hh
        subst hh
        rw [hfwd0] at hg3
        cases hg3
        omega
      have ha'last : a'.slots[last]? = some (Slot.filled g3 (t.keys.length - 1)) :=
        (ha'filled last g3 (t.keys.length - 1)).mpr ⟨hlastne, hg3⟩
      have hpatch : a'.setValueAt last p
          = ⟨a'.free_list_head, a'.slots.set last (Slot.filled g3 p)⟩ :=
        setValueAt_filled ha'last p
      rw [hpatch]
      refine ⟨?_, ?_, ?_⟩
      · have := swf_setValueAt ha'swf last p
        rw [hpatch] at this
        exact this
      · intro q j h
        have hqlt : q < t.keys.length - 1 :=
          (List.getElem?_eq_some_iff.mp h).1.trans_eq hkeylen
        by_cases hqp : q = p
        · subst hqp
          rw [hswp] at h
          cases h
          refine ⟨g3, ?_⟩
          rw [List.getElem?_set_self
            (by simpa using (List.getElem?_eq_some_iff.mp ha'last).1)]
        · rw [listSwapRemove_get_ne hqlt hqp] at h
          rcases hfwd q j h with ⟨g2, hg2⟩
          have hji : j ≠ i0 := by
            intro hh
            subst hh
            rw [hfwd0] at hg2
            cases hg2
            exact hqp rfl
          have hjlast : j ≠ last := by
            intro hh
            subst hh
            rw [hg3] at hg2
            cases hg2
            omega
          refine ⟨g2, ?_⟩
          rw [List.getElem?_set_ne (fun x => hjlast x.symm)]
          exact (ha'filled j g2 q).mpr ⟨hji, hg2⟩
      · intro j g2 q h
        by_cases hjlast : j = last
        · subst hjlast
          rw [List.getElem?_set_self
            (by simpa using (List.getElem?_eq_some_iff.mp ha'last).1)] at h
          cases h
          exact hswp
        · rw [List.getElem?_set_ne (fun x => hjlast x.symm)] at h
          rcases (ha'filled j g2 q).mp h with ⟨hji, hold⟩
          have hkeyq := hrev j g2 q hold
          have hqlt : q < t.keys.length := (List.getElem?_eq_some_iff.mp hkeyq).1
          have hqp : q ≠ p := by
            intro hh
            subst hh
            rw [hkeysp] at hkeyq
            cases hkeyq
            exact hji rfl
          have hqlast : q ≠ t.keys.length - 1 := by
            intro hh
            subst hh
            rw [hlast] at hkeyq
            cases hkeyq
            exact hjlast rfl
          have hqlt1 : q < t.keys.length - 1 := by omega
          rw [listSwapRemove_get_ne hqlt1 hqp]
          exact hkeyq

theorem twf_dtstep {gi : GenerationImpl G F} (laws : GenLaws gi)
    {t : GenericDenseTracker G} (hwf : TWF gi t) (op : TOp F) :
    TWF gi (dtstep gi t op) := by
  cases op with
  | vacant => exact twf_vacantPrep laws hwf
  | insert => exact twf_insert laws hwf
  | removeKey k => exact twf_tryRemove laws hwf k
  | removeIdx i => exact twf_tryRemove laws hwf i

theorem twf_dtrun {gi : GenerationImpl G F} (laws : GenLaws gi)
    {t : GenericDenseTracker G} (hwf : TWF gi t) (ops : List (TOp F)) :
    TWF gi (dtrun gi t ops) := by
  induction ops generalizing t with
  | nil => exact hwf
  | cons op ops ih => exact ih (twf_dtstep laws hwf op)

/-! ### C2: the dense-tracker bijection invariant -/

/-- **C2.** For every `GenericDenseTracker` reachable by any sequence of
`vacant_slot`/insert and remove operations, and for every position `p`
in `0..len()`, the reverse map entry `keys[p]` names a forward-map slot
whose stored position value is exactly `p` (in particular the
swap-remove bookkeeping in `remove_at` patches the moved entry's
forward-map position field whenever an entry is moved into the vacated
position — without the patch the moved entry would still store its old
position and this invariant would fail after any non-last removal). -/
theorem dense_tracker_bijection {G F : Type} (gi : GenerationImpl G F)
    (laws : GenLaws gi) (t : GenericDenseTracker G)
    (hreach : TReach gi GenericDenseTracker.new t) :
    ∀ (p j : Nat), t.keys[p]? = some j →
      j < t.index.slots.length
      ∧ ∃ g, t.index.slots[j]? = some (Slot.filled g p) := by
  rcases hreach with ⟨ops, rfl⟩
  have hwf := twf_dtrun laws (twf_new gi) ops
  intro p j h
  rcases hwf.2.1 p j h with ⟨g, hg⟩
  exact ⟨(List.getElem?_eq_some_iff.mp hg).1, g, hg⟩

/-- Witness for C2: three insertions followed by removal of the middle
key (which exercises the swap-remove patch) under `g8`. -/
theorem dense_tracker_bijection_witness :
    GenLaws (satGen 8)
    ∧ TReach (satGen 8) GenericDenseTracker.new
        (dtrun (satGen 8) GenericDenseTracker.new
          [TOp.insert, TOp.insert, TOp.insert, TOp.removeKey ⟨1, 1⟩])
    ∧ (∀ (p j : Nat),
        (dtrun (satGen 8) GenericDenseTracker.new
          [TOp.insert, TOp.insert, TOp.insert,
            TOp.removeKey ⟨1, 1⟩]).keys[p]? = some j →
        j < (dtrun (satGen 8) GenericDenseTracker.new
          [TOp.insert, TOp.insert, TOp.insert,
            TOp.removeKey ⟨1, 1⟩]).index.slots.length
        ∧ ∃ g, (dtrun (satGen 8) GenericDenseTracker.new
            [TOp.insert, TOp.insert, TOp.insert,
              TOp.removeKey ⟨1, 1⟩]).index.slots[j]?
            = some (Slot.filled g p)) :=
  ⟨satGen_laws 8, ⟨_, rfl⟩,
    dense_tracker_bijection (satGen 8) (satGen_laws 8) _ ⟨_, rfl⟩⟩

theorem tracker_tryRemove_none_elim {gi : GenerationImpl G F}
    {ki : ArenaIndexImpl K G F} {t t' : GenericDenseTracker G} {k : K}
    (h : t.tryRemove gi ki k = (none, t')) : t' = t := by
  unfold GenericDenseTracker.tryRemove at h
  rcases hrm : t.index.tryRemove gi ki k with ⟨res, a'⟩
  rw [hrm] at h
  cases res with
  | none => exact ((Prod.mk.injEq _ _ _ _).mp h).2.symm
  | some p => simp at h

/-- A dense-arena operation acts on the tracker exactly as the
corresponding tracker operation. -/
theorem dastep_tracker_eq (gi : GenerationImpl G F)
    (d : GenericDenseArena T G) (op : DAOp T F) :
    (dastep gi d op).tracker = dtstep gi d.tracker op.toTOp := by
  cases op with
  | vacant => rfl
  | insert v => rfl
  | removeKey k =>
    show (d.tryRemove gi (arenaKeyKI gi) k).2.tracker
      = (d.tracker.tryRemove gi (arenaKeyKI gi) k).2
    unfold GenericDenseArena.tryRemove
    rcases h : d.tracker.tryRemove gi (arenaKeyKI gi) k with ⟨res, t'⟩
    cases res with
    | none =>
      simp only []
      exact (tracker_tryRemove_none_elim h).symm
    | some p => rfl
  | removeIdx i =>
    show (d.tryRemove gi (usizeKI gi) i).2.tracker
      = (d.tracker.tryRemove gi (usizeKI gi) i).2
    unfold GenericDenseArena.tryRemove
    rcases h : d.tracker.tryRemove gi (usizeKI gi) i with ⟨res, t'⟩
    cases res with
    | none =>
      simp only []
      exact (tracker_tryRemove_none_elim h).symm
    | some p => rfl

theorem srun_append (gi : GenerationImpl G F) (a : GenericSparseArena T G)
    (ops1 ops2 : List (SOp T)) :
    srun gi a (ops1 ++ ops2) = srun gi (srun gi a ops1) ops2 :=
  List.foldl_append _ _ _ _

theorem sreach_trans {gi : GenerationImpl G F}
    {a b c : GenericSparseArena T G}
    (h1 : SReach gi a b) (h2 : SReach gi b c) : SReach gi a c := by
  rcases h1 with ⟨ops1, rfl⟩
  rcases h2 with ⟨ops2, rfl⟩
  exact ⟨ops1 ++ ops2, srun_append gi _ ops1 ops2⟩

/-- A tracker operation induces a sequence of sparse-arena operations on
the forward map. -/
theorem dtstep_index_sreach {gi : GenerationImpl G F}
    (t : GenericDenseTracker G) (op : TOp F) :
    SReach gi t.index ((dtstep gi t op).index) := by
  cases op with
  | vacant => exact ⟨[SOp.vacant], rfl⟩
  | insert =>
    refine ⟨[SOp.insert t.keys.length], ?_⟩
    rfl
  | removeKey k =>
    show SReach gi t.index ((t.tryRemove gi (arenaKeyKI gi) k).2.index)
    unfold GenericDenseTracker.tryRemove
    rcases h : t.index.tryRemove gi (arenaKeyKI gi) k with ⟨res, a'⟩
    cases res with
    | none => exact ⟨[], rfl⟩
    | some p =>
      rcases tryRemove_some_elim h with ⟨g, hs, hm, ha'⟩
      unfold GenericDenseTracker.removeAt
      rcases hsw : (listSwapRemove t.keys p)[p]? with _ | j
      · exact ⟨[SOp.removeAt ((arenaKeyKI gi).toIndex k)],
          by simp [srun, sstep, ← ha', hsw]⟩
      · refine ⟨[SOp.removeAt ((arenaKeyKI gi).toIndex k), SOp.update j p], ?_⟩
        simp [srun, sstep, ← ha', hsw]
  | removeIdx i =>
    show SReach gi t.index ((t.tryRemove gi (usizeKI gi) i).2.index)
    unfold GenericDenseTracker.tryRemove
    rcases h : t.index.tryRemove gi (usizeKI gi) i with ⟨res, a'⟩
    cases res with
    | none => exact ⟨[], rfl⟩
    | some p =>
      rcases tryRemove_some_elim h with ⟨g, hs, hm, ha'⟩
      unfold GenericDenseTracker.removeAt
      rcases hsw : (listSwapRemove t.keys p)[p]? with _ | j
      · exact ⟨[SOp.removeAt ((usizeKI gi).toIndex i)],
          by simp [srun, sstep, ← ha', hsw]⟩
      · refine ⟨[SOp.removeAt ((usizeKI gi).toIndex i), SOp.update j p], ?_⟩
        simp [srun, sstep, ← ha', hsw]

/-- A dense-arena run induces a sparse-arena run on the forward map. -/
theorem darun_index_sreach (gi : GenerationImpl G F)
    (d : GenericDenseArena T G) (ops : List (DAOp T F)) :
    SReach gi d.tracker.index ((darun gi d ops).tracker.index) := by
  induction ops generalizing d with
  | nil => exact ⟨[], rfl⟩
  | cons op ops ih =>
    refine sreach_trans ?_ (ih (dastep gi d op))
    rw [dastep_tracker_eq]
    exact dtstep_index_sreach d.tracker op.toTOp

theorem g8cycleN_add (m n : Nat) (d : GenericDenseArena Nat Nat) :
    g8cycleN (m + n) d = g8cycleN n (g8cycleN m d) := by
  induction n with
  | zero => rfl
  | succ n ih =>
    show g8cycle (g8cycleN (m + n) d) = g8cycle (g8cycleN n (g8cycleN m d))
    rw [ih]

set_option maxRecDepth 40000 in
theorem g8cycles_64 : g8cycles 64 = ⟨[], ⟨[], ⟨0, [Slot.empty 128 1]⟩⟩⟩ := by
  decide

set_option maxRecDepth 40000 in
theorem g8cycles_127 : g8cycles 127 = ⟨[], ⟨[], ⟨0, [Slot.empty 254 1]⟩⟩⟩ := by
  have h : (127 : Nat) = 64 + 63 := rfl
  rw [g8cycles, h, g8cycleN_add]
  rw [show g8cycleN 64 GenericDenseArena.new = ⟨[], ⟨[], ⟨0, [Slot.empty 128 1]⟩⟩⟩
    from g8cycles_64]
  decide

set_option maxRecDepth 40000 in
theorem g8cycles_128 : g8cycles 128 = ⟨[], ⟨[], ⟨1, [Slot.empty 0 0]⟩⟩⟩ := by
  have h : (128 : Nat) = 127 + 1 := rfl
  rw [g8cycles, h, g8cycleN_add]
  rw [show g8cycleN 127 GenericDenseArena.new = ⟨[], ⟨[], ⟨0, [Slot.empty 254 1]⟩⟩⟩
    from g8cycles_127]
  decide

/-- Each cycle is two dense-arena operations, so it projects to a
sparse-arena run on the forward map. -/
theorem g8cycle_index_sreach (d : GenericDenseArena Nat Nat) :
    SReach (satGen 8) d.tracker.index ((g8cycle d).tracker.index) :=
  darun_index_sreach (satGen 8) d
    [DAOp.insert 0,
      DAOp.removeKey ((d.insert (satGen 8) (arenaKeyKI (satGen 8)) 0).1)]

theorem g8cycles_index_sreach (n : Nat) :
    SReach (satGen 8) GenericSparseArena.new ((g8cycles n).tracker.index) := by
  induction n with
  | zero => exact ⟨[], rfl⟩
  | succ n ih => exact sreach_trans ih (g8cycle_index_sreach (g8cycles n))

/-- **C3 (counterexample).** After one initial cycle plus 126
repetitions (127 insert/remove cycles on slot 0 of a fresh `g8` dense
arena), the 127th cycle's `try_empty` has SUCCEEDED (the slot holds the
live empty generation 254 produced by `try_empty 253`), slot 0 is not
retired, and the next insert lands on slot index 0 again (with the
128th and final odd generation 255) — refuting the claim that the 127th
cycle exhausts the 8-bit saturating generation. -/
theorem g8_exhaustion_127_counterexample :
    (g8cycles 127).tracker.index.slots[(0 : Nat)]? = some (Slot.empty 254 1)
    ∧ (satGen 8).tryEmpty 253 = some 254
    ∧ ((g8cycles 127).insert (satGen 8) (arenaKeyKI (satGen 8)) 0).1
        = (⟨0, 255⟩ : ArenaKey Nat) := by
  rw [g8cycles_127]
  refine ⟨rfl, by decide, by decide⟩

/-- **C3 (amended).** Starting from a fresh arena using the 8-bit
saturating generation, repeatedly inserting into and removing from slot
0 makes the 128th cycle's `try_empty` fail (two initial cycles plus 126
repetitions, as in the source test `generic_dense::tests::basic`), at
which point slot 0 is retired (`EMPTY` generation, self-linked, off the
free list) and the next insert lands on a different slot index (index
1) — and slot 0 is never filled again by any later sequence of
operations. -/
theorem g8_exhaustion_128 :
    (satGen 8).tryEmpty 255 = none
    ∧ (g8cycles 128).tracker.index.slots[(0 : Nat)]? = some (Slot.empty 0 0)
    ∧ ((g8cycles 128).insert (satGen 8) (arenaKeyKI (satGen 8)) 0).1
        = (⟨1, 1⟩ : ArenaKey Nat)
    ∧ ∀ ops : List (DAOp Nat Nat),
        (darun (satGen 8) (g8cycles 128) ops).tracker.index.slots[(0 : Nat)]?
          = some (Slot.empty 0 0) := by
  have hwf0 : SWF (satGen 8) ((g8cycles 128).tracker.index) :=
    swf_reachable (satGen_laws 8) (g8cycles_index_sreach 128)
  have hj : ((g8cycles 128).tracker.index).slots[(0 : Nat)]?
      = some (Slot.empty (satGen 8).EMPTY 0) := by
    rw [g8cycles_128]
    rfl
  refine ⟨by decide, by rw [g8cycles_128]; rfl, by rw [g8cycles_128]; decide, ?_⟩
  intro ops
  rcases darun_index_sreach (satGen 8) (g8cycles 128) ops with ⟨sops, hsops⟩
  rw [← hsops]
  exact retired_stable_srun (satGen_laws 8) hwf0 hj sops

theorem pow_two_even {b : Nat} (hb : 1 ≤ b) : 2 ^ b % 2 = 0 := by
  have : 2 ^ b = 2 * 2 ^ (b - 1) := by
    rw [← pow_succ']
    congr 1
    omega
  omega

theorem range_sstep {b : Nat} (hb : 1 ≤ b) {a : GenericSparseArena T Nat}
    (hwf : SWF (satGen b) a) (hr : RangeInv b a) (op : SOp T) :
    RangeInv b (sstep (satGen b) a op) := by
  have hpow : 0 < 2 ^ b := Nat.pos_pow_of_pos b (by omega)
  have heven := pow_two_even hb
  have hprep : RangeInv b (a.vacantPrep (satGen b)) := by
    intro i st hst
    unfold GenericSparseArena.vacantPrep GenericSparseArena.reserveVacantSlotSlow
      at hst
    by_cases h : a.free_list_head = a.slots.length
    · rw [if_pos h] at hst
      rcases getElem?_concat_cases hst with hold | ⟨_, rfl⟩
      · exact hr i st hold
      · simp [Slot.generation, satGen]
    · rw [if_neg h] at hst
      exact hr i st hst
  cases op with
  | vacant => exact hprep
  | insert v =>
    obtain ⟨g, n, hi, hlt1⟩ := swf_vacant_slot (satGen_laws b) hwf
    have hwf1 := (swf_vacantPrep (satGen_laws b) hwf).1
    have hgeven : g % 2 = 0 := by
      have := hwf1.1 _ _ hi
      simpa [Slot.generation, Slot.isFilledSlot, satGen] using this
    have hglt : g < 2 ^ b := hprep _ _ hi
    have hsnd := insertWith_snd_eq (satGen b) (usizeKI (satGen b))
      (fun _ => v) hi
    show RangeInv b (a.insertWith (satGen b) (usizeKI (satGen b)) fun _ => v).2
    rw [hsnd]
    intro i st hst
    by_cases hii : i = (a.vacantPrep (satGen b)).free_list_head
    · subst hii
      rw [List.getElem?_set_self (by simpa using hlt1)] at hst
      cases hst
      have : (satGen b).fill g = g + 1 := by
        simp [satGen, lor_one_of_even hgeven]
      simp only [Slot.generation, this]
      omega
    · rw [List.getElem?_set_ne (fun x => hii x.symm)] at hst
      exact hprep i st hst
  | removeAt i =>
    show RangeInv b (a.removeStateAt (satGen b) i)
    rcases hs : a.slots[i]? with _ | st0
    · rw [removeStateAt_none hs]
      exact hr
    · cases st0 with
      | empty g n =>
        rw [removeStateAt_empty hs]
        exact hr
      | filled g v =>
        have hilt : i < a.slots.length := (List.getElem?_eq_some_iff.mp hs).1
        rcases he : (satGen b).tryEmpty g with _ | g'
        · rw [removeStateAt_retire hs he]
          intro j st hst
          by_cases hij : j = i
          · subst hij
            rw [List.getElem?_set_self (by simpa using hilt)] at hst
            cases hst
            simp [Slot.generation, satGen]
          · rw [List.getElem?_set_ne (fun x => hij x.symm)] at hst
            exact hr j st hst
        · rw [removeStateAt_relink hs he]
          have hg' : g' = g + 1 ∧ g + 1 < 2 ^ b := by
            simp only [satGen] at he
            split at he
            · cases he
              exact ⟨rfl, by assumption⟩
            · cases he
          intro j st hst
          by_cases hij : j = i
          · subst hij
            rw [List.getElem?_set_self (by simpa using hilt)] at hst
            cases hst
            simpa [Slot.generation, hg'.1] using hg'.2
          · rw [List.getElem?_set_ne (fun x => hij x.symm)] at hst
            exact hr j st hst
  | update i v =>
    show RangeInv b (a.setValueAt i v)
    rcases hs : a.slots[i]? with _ | st0
    · rw [setValueAt_not_filled v (by simp [hs])]
      exact hr
    · cases st0 with
      | empty g n =>
        rw [setValueAt_not_filled v (by simp [hs])]
        exact hr
      | filled g w =>
        rw [setValueAt_filled hs v]
        intro j st hst
        by_cases hij : j = i
        · subst hij
          rw [List.getElem?_set_self
            (by simpa using (List.getElem?_eq_some_iff.mp hs).1)] at hst
          cases hst
          have := hr _ (Slot.filled g w) hs
          simpa [Slot.generation] using this
        · rw [List.getElem?_set_ne (fun x => hij x.symm)] at hst
          exact hr j st hst

theorem sat_stable_vacantPrep {b s j : Nat} {a : GenericSparseArena T Nat}
    (hst : SatStable b s j a) :
    SatStable b s j (a.vacantPrep (satGen b)) := by
  rcases hst with ⟨hjlt, hst⟩
  unfold GenericSparseArena.vacantPrep GenericSparseArena.reserveVacantSlotSlow
  by_cases h : a.free_list_head = a.slots.length
  · rw [if_pos h]
    refine ⟨by simpa using Nat.lt_succ_of_lt hjlt, ?_⟩
    intro st hstj
    rw [List.getElem?_append_left hjlt] at hstj
    exact hst st hstj
  · rw [if_neg h]
    exact ⟨hjlt, hst⟩

theorem sat_stable_sstep {b s j : Nat} (hb : 1 ≤ b)
    {a : GenericSparseArena T Nat}
    (hwf : SWF (satGen b) a) (hst : SatStable b s j a) (op : SOp T) :
    SatStable b s j (sstep (satGen b) a op) := by
  have heven := pow_two_even hb
  cases op with
  | vacant => exact sat_stable_vacantPrep hst
  | insert v =>
    obtain ⟨g, n, hi, hlt1⟩ := swf_vacant_slot (satGen_laws b) hwf
    have hwf1 := (swf_vacantPrep (satGen_laws b) hwf).1
    have hst1 := sat_stable_vacantPrep (b := b) hst
    rcases hst1 with ⟨hjlt1, hst1⟩
    have hsnd := insertWith_snd_eq (satGen b) (usizeKI (satGen b))
      (fun _ => v) hi
    show SatStable b s j (a.insertWith (satGen b) (usizeKI (satGen b)) fun _ => v).2
    rw [hsnd]
    refine ⟨by simpa using hjlt1, ?_⟩
    intro st hstj
    by_cases hij : j = (a.vacantPrep (satGen b)).free_list_head
    · -- the head slot is being filled; if it is `j`, `j` is on the chain,
      -- so it is not retired and its generation is above `s`
      subst hij
      rw [List.getElem?_set_self (by simpa using hlt1)] at hstj
      cases hstj
      rcases hst1 _ hi with ⟨hgt, hlt⟩ | hself
      · left
        have hgeven : g % 2 = 0 := by
          have := hwf1.1 _ _ hi
          simpa [Slot.generation, Slot.isFilledSlot, satGen] using this
        have hfill : (satGen b).fill g = g + 1 := by
          simp [satGen, lor_one_of_even hgeven]
        simp only [Slot.generation, hfill]
        simp only [Slot.generation] at hgt hlt
        omega
      · -- a self-linked retired slot cannot be the chain head
        exfalso
        cases hself
        rcases hwf1.2 with ⟨fl, hch, _⟩
        rcases freeChain_cases hch with ⟨heq, _⟩ | ⟨g2, n2, tl, rfl, hi2, _⟩
        · omega
        · exact freeChain_selfloop_not_mem hch hi (List.mem_cons_self _ _)
    · rw [List.getElem?_set_ne (fun x => hij x.symm)] at hstj
      exact hst1 st hstj
  | removeAt i =>
    rcases hst with ⟨hjlt, hst⟩
    show SatStable b s j (a.removeStateAt (satGen b) i)
    rcases hs : a.slots[i]? with _ | st0
    · rw [removeStateAt_none hs]
      exact ⟨hjlt, hst⟩
    · cases st0 with
      | empty g n =>
        rw [removeStateAt_empty hs]
        exact ⟨hjlt, hst⟩
      | filled g v =>
        have hilt : i < a.slots.length := (List.getElem?_eq_some_iff.mp hs).1
        rcases he : (satGen b).tryEmpty g with _ | g'
        · rw [removeStateAt_retire hs he]
          refine ⟨by simpa using hjlt, ?_⟩
          intro st hstj
          by_cases hij : j = i
          · subst hij
            rw [List.getElem?_set_self (by simpa using hilt)] at hstj
            cases hstj
            exact Or.inr rfl
          · rw [List.getElem?_set_ne (fun x => hij x.symm)] at hstj
            exact hst st hstj
        · rw [removeStateAt_relink hs he]
          have hg' : g' = g + 1 ∧ g + 1 < 2 ^ b := by
            simp only [satGen] at he
            split at he
            · cases he
              exact ⟨rfl, by assumption⟩
            · cases he
          refine ⟨by simpa using hjlt, ?_⟩
          intro st hstj
          by_cases hij : j = i
          · subst hij
            rw [List.getElem?_set_self (by simpa using hilt)] at hstj
            cases hstj
            rcases hst _ hs with ⟨hgt, hlt⟩ | hself
            · left
              simp only [Slot.generation] at hgt hlt ⊢
              omega
            · cases hself
          · rw [List.getElem?_set_ne (fun x => hij x.symm)] at hstj
            exact hst st hstj
  | update i v =>
    rcases hst with ⟨hjlt, hst⟩
    show SatStable b s j (a.setValueAt i v)
    rcases hs : a.slots[i]? with _ | st0
    · rw [setValueAt_not_filled v (by simp [hs])]
      exact ⟨hjlt, hst⟩
    · cases st0 with
      | empty g n =>
        rw [setValueAt_not_filled v (by simp [hs])]
        exact ⟨hjlt, hst⟩
      | filled g w =>
        rw [setValueAt_filled hs v]
        refine ⟨by simpa using hjlt, ?_⟩
        intro st hstj
        by_cases hij : j = i
        · subst hij
          rw [List.getElem?_set_self
            (by simpa using (List.getElem?_eq_some_iff.mp hs).1)] at hstj
          cases hstj
          rcases hst _ hs with ⟨hgt, hlt⟩ | hself
          · left
            simp only [Slot.generation] at hgt hlt ⊢
            exact ⟨hgt, hlt⟩
          · cases hself
        · rw [List.getElem?_set_ne (fun x => hij x.symm)] at hstj
          exact hst st hstj

theorem sat_stable_srun {b s j : Nat} (hb : 1 ≤ b)
    {a : GenericSparseArena T Nat}
    (hwf : SWF (satGen b) a) (hst : SatStable b s j a) (ops : List (SOp T)) :
    SatStable b s j (srun (satGen b) a ops) := by
  induction ops generalizing a with
  | nil => exact hst
  | cons op ops ih =>
    exact ih (swf_sstep (satGen_laws b) hwf op) (sat_stable_sstep hb hwf hst op)

/-- A key whose snapshot differs from every generation the slot can
now hold is rejected by `get` and `try_remove`. -/
theorem sat_stable_rejects {b s j : Nat} {a2 : GenericSparseArena T Nat}
    (hst : SatStable b s j a2) (hsodd : s % 2 = 1) :
    a2.get (satGen b) (arenaKeyKI (satGen b)) ⟨j, s⟩ = none
    ∧ (a2.tryRemove (satGen b) (arenaKeyKI (satGen b)) ⟨j, s⟩).1 = none := by
  have hmatch : ∀ st : Slot T Nat, a2.slots[j]? = some st →
      (satGen b).gmatches st.generation s = false := by
    intro st hstj
    rcases hst.2 st hstj with ⟨hgt, _⟩ | hself
    · simp only [satGen, decide_eq_false_iff_not]
      omega
    · subst hself
      simp only [Slot.generation, satGen, decide_eq_false_iff_not]
      omega
  constructor
  · unfold GenericSparseArena.get
    rcases hstj : a2.slots[j]? with _ | st
    · simp only [arenaKeyKI, hstj]
    · simp only [arenaKeyKI, hstj]
      rw [if_neg (by simp [hmatch st hstj])]
  · unfold GenericSparseArena.tryRemove
    rcases hstj : a2.slots[j]? with _ | st
    · simp only [arenaKeyKI, hstj]
    · simp only [arenaKeyKI, hstj]
      rw [if_neg (by simp [hmatch st hstj])]

/-- After a successful removal with key `k` on a well-formed saturating
arena, the stability predicate holds with the key's snapshot. -/
theorem sat_stable_established {b : Nat} {a a1 : GenericSparseArena T Nat}
    {k : ArenaKey Nat} {v : T}
    (hwf : SWF (satGen b) a)
    (hrm : a.tryRemove (satGen b) (arenaKeyKI (satGen b)) k = (some v, a1)) :
    SatStable b k.generation k.index a1 ∧ k.generation % 2 = 1
    ∧ SWF (satGen b) a1 := by
  rcases tryRemove_some_elim hrm with ⟨g, hs, hm, ha1⟩
  have hidx : (arenaKeyKI (satGen b)).toIndex k = k.index := rfl
  rw [hidx] at hs ha1
  have hgs : g = k.generation := by
    simpa [arenaKeyKI, satGen] using hm
  subst hgs
  have hodd : k.generation % 2 = 1 := by
    have := hwf.1 _ _ hs
    simpa [Slot.generation, Slot.isFilledSlot, satGen] using this
  have hjlt : k.index < a.slots.length := (List.getElem?_eq_some_iff.mp hs).1
  refine ⟨?_, hodd, by rw [ha1]; exact swf_removeStateAt (satGen_laws b) hwf _⟩
  subst ha1
  rcases he : (satGen b).tryEmpty k.generation with _ | g'
  · rw [removeStateAt_retire hs he]
    refine ⟨by simpa using hjlt, ?_⟩
    intro st hstj
    rw [List.getElem?_set_self (by simpa using hjlt)] at hstj
    cases hstj
    exact Or.inr (by simp [satGen])
  · rw [removeStateAt_relink hs he]
    have hg' : g' = k.generation + 1 ∧ k.generation + 1 < 2 ^ b := by
      simp only [satGen] at he
      split at he
      · cases he
        exact ⟨rfl, by assumption⟩
      · cases he
    refine ⟨by simpa using hjlt, ?_⟩
    intro st hstj
    rw [List.getElem?_set_self (by simpa using hjlt)] at hstj
    cases hstj
    left
    simp only [Slot.generation, hg'.1]
    omega

/-- A successful dense-arena removal performs a successful forward-map
removal, and the final forward map is reachable from the removal's
result state. -/
theorem dense_tryRemove_some_elim {gi : GenerationImpl G F}
    {ki : ArenaIndexImpl K G F} {d d' : GenericDenseArena T G} {k : K} {v : T}
    (h : d.tryRemove gi ki k = (some v, d')) :
    ∃ p a', d.tracker.index.tryRemove gi ki k = (some p, a')
      ∧ SReach gi a' d'.tracker.index := by
  unfold GenericDenseArena.tryRemove at h
  rcases ht : d.tracker.tryRemove gi ki k with ⟨res, t'⟩
  rw [ht] at h
  cases res with
  | none => simp at h
  | some p0 =>
    have hd' : d'.tracker = t' := by
      have := ((Prod.mk.injEq _ _ _ _).mp h).2
      rw [← this]
    unfold GenericDenseTracker.tryRemove at ht
    rcases hrm : d.tracker.index.tryRemove gi ki k with ⟨res0, a'⟩
    rw [hrm] at ht
    cases res0 with
    | none => simp at ht
    | some p =>
      refine ⟨p, a', rfl, ?_⟩
      have ht' : t' = (GenericDenseTracker.removeAt ⟨d.tracker.keys, a'⟩ p).2 :=
        ((Prod.mk.injEq _ _ _ _).mp ht).2.symm
      rw [hd', ht']
      unfold GenericDenseTracker.removeAt
      rcases hsw : (listSwapRemove d.tracker.keys p)[p]? with _ | j
      · exact ⟨[], by simp [srun, hsw]⟩
      · exact ⟨[SOp.update j p], by simp [srun, sstep, hsw]⟩

theorem dense_get_none_of_fwd {gi : GenerationImpl G F}
    {ki : ArenaIndexImpl K G F} {d : GenericDenseArena T G} {k : K}
    (h : d.tracker.index.get gi ki k = none) :
    d.get gi ki k = none := by
  unfold GenericDenseArena.get GenericDenseTracker.get
  rw [h]

theorem dense_tryRemove_none_of_fwd {gi : GenerationImpl G F}
    {ki : ArenaIndexImpl K G F} {d : GenericDenseArena T G} {k : K}
    (h : (d.tracker.index.tryRemove gi ki k).1 = none) :
    (d.tryRemove gi ki k).1 = none := by
  unfold GenericDenseArena.tryRemove GenericDenseTracker.tryRemove
  rcases hrm : d.tracker.index.tryRemove gi ki k with ⟨res, a'⟩
  rw [hrm] at h
  cases res with
  | none => rfl
  | some p => simp at h

/-! ### C1: ABA rejection -/

/-- **C1.** ABA rejection.  Part 1 (sparse, saturating policies
`g8`..`gsize`, i.e. `satGen b`, `b ≥ 1`): in any reachable arena, after
`remove(k)` succeeds, every subsequent `get(k)` returns `None` and every
subsequent `try_remove(k)` returns `None` for the remainder of the
arena's life, even if later inserts reuse `k`'s raw slot index.  Part 2:
the same holds for the dense arena (whose forward map performs the
generation check).  Part 3 (`NoGeneration` exception): a stale key is
rejected only while the slot is empty; once the slot is refilled, the
stale key is indistinguishable from the new occupant's key.  Part 4
(wrapping-policy exception, `gw8`..`gwsize` = `wrapGen b`): a stale key
is accepted again exactly when the slot has been refilled with a
generation equal to the key's snapshot, which requires the slot's
counter to have wrapped around. -/
theorem aba_rejection :
    (∀ (T : Type) (b : Nat), 1 ≤ b →
      ∀ (a a1 : GenericSparseArena T Nat) (k : ArenaKey Nat) (v : T),
      SReach (satGen b) GenericSparseArena.new a →
      a.tryRemove (satGen b) (arenaKeyKI (satGen b)) k = (some v, a1) →
      ∀ a2, SReach (satGen b) a1 a2 →
        a2.get (satGen b) (arenaKeyKI (satGen b)) k = none
        ∧ (a2.tryRemove (satGen b) (arenaKeyKI (satGen b)) k).1 = none)
    ∧ (∀ (T : Type) (b : Nat), 1 ≤ b →
      ∀ (d d1 : GenericDenseArena T Nat) (k : ArenaKey Nat) (v : T),
      (∃ dops, darun (satGen b) GenericDenseArena.new dops = d) →
      d.tryRemove (satGen b) (arenaKeyKI (satGen b)) k = (some v, d1) →
      ∀ ops : List (DAOp T Nat),
        (darun (satGen b) d1 ops).get (satGen b) (arenaKeyKI (satGen b)) k = none
        ∧ ((darun (satGen b) d1 ops).tryRemove (satGen b)
            (arenaKeyKI (satGen b)) k).1 = none)
    ∧ (∀ (T : Type) (a : GenericSparseArena T Bool) (k : ArenaKey Unit),
        (∀ (g : Bool) (n : Nat), a.slots[k.index]? = some (Slot.empty g n) →
          a.get noGen (arenaKeyKI noGen) k = none)
        ∧ ∀ v : T, a.slots[k.index]? = some (Slot.filled true v) →
            a.get noGen (arenaKeyKI noGen) k = some v)
    ∧ (∀ (T : Type) (b : Nat) (a : GenericSparseArena T Nat)
        (k : ArenaKey Nat) (v : T),
        a.get (wrapGen b) (arenaKeyKI (wrapGen b)) k = some v →
        a.slots[k.index]? = some (Slot.filled k.generation v)) := by
  refine ⟨?_, ?_, ?_, ?_⟩
  · intro T b hb a a1 k v hreach hrm a2 h2
    have hwf := swf_reachable (satGen_laws b) hreach
    obtain ⟨hst, hodd, hwf1⟩ := sat_stable_established hwf hrm
    rcases h2 with ⟨ops, rfl⟩
    have hst2 := sat_stable_srun hb hwf1 hst ops
    exact sat_stable_rejects hst2 hodd
  · intro T b hb d d1 k v hreach hrm ops
    rcases hreach with ⟨dops, hd⟩
    have hreachfwd : SReach (satGen b) GenericSparseArena.new
        (d.tracker.index) := by
      rw [← hd]
      exact darun_index_sreach (satGen b) GenericDenseArena.new dops
    have hwf := swf_reachable (satGen_laws b) hreachfwd
    obtain ⟨p, a', hrm', hreach'⟩ := dense_tryRemove_some_elim hrm
    obtain ⟨hst, hodd, hwfa'⟩ := sat_stable_established hwf hrm'
    have h2 : SReach (satGen b) a'
        ((darun (satGen b) d1 ops).tracker.index) :=
      sreach_trans hreach' (darun_index_sreach (satGen b) d1 ops)
    rcases h2 with ⟨sops, hsops⟩
    have hst2 := sat_stable_srun hb hwfa' hst sops
    rw [hsops] at hst2
    have hrej := sat_stable_rejects hst2 hodd
    exact ⟨dense_get_none_of_fwd hrej.1, dense_tryRemove_none_of_fwd hrej.2⟩
  · intro T a k
    constructor
    · intro g n hs
      unfold GenericSparseArena.get
      simp only [arenaKeyKI, hs]
      split
      · rfl
      · rfl
    · intro v hs
      unfold GenericSparseArena.get
      simp only [arenaKeyKI, hs]
      rfl
  · intro T b a k v h
    unfold GenericSparseArena.get at h
    rcases hstj : a.slots[k.index]? with _ | st
    · simp only [arenaKeyKI, hstj] at h
      cases h
    · simp only [arenaKeyKI, hstj] at h
      by_cases hm : (wrapGen b).gmatches st.generation k.generation = true
      · rw [if_pos hm] at h
        cases st with
        | filled g w =>
          simp only [Slot.value?, Option.some.injEq] at h
          subst h
          have hgk : g = k.generation := by
            simpa [wrapGen, Slot.generation] using hm
          rw [← hgk]
        | empty g n => simp [Slot.value?] at h
      · rw [if_neg hm] at h
        simp at h

/-- Witness for C1: a `g8` sparse arena with one element; removing it
and reinserting (which reuses raw slot 0 with generation 3) leaves the
stale key `(0, 1)` rejected by both `get` and `try_remove`. -/
theorem aba_rejection_witness :
    (1 ≤ 8)
    ∧ SReach (satGen 8) GenericSparseArena.new
        (⟨1, [Slot.filled 1 5]⟩ : GenericSparseArena Nat Nat)
    ∧ (GenericSparseArena.tryRemove (satGen 8) (arenaKeyKI (satGen 8))
        (⟨1, [Slot.filled 1 5]⟩ : GenericSparseArena Nat Nat) ⟨0, 1⟩
        = (some 5, ⟨0, [Slot.empty 2 1]⟩))
    ∧ SReach (satGen 8) (⟨0, [Slot.empty 2 1]⟩ : GenericSparseArena Nat Nat)
        (⟨1, [Slot.filled 3 9]⟩ : GenericSparseArena Nat Nat)
    ∧ ((⟨1, [Slot.filled 3 9]⟩ : GenericSparseArena Nat Nat).get (satGen 8)
          (arenaKeyKI (satGen 8)) ⟨0, 1⟩ = none
      ∧ ((⟨1, [Slot.filled 3 9]⟩ : GenericSparseArena Nat Nat).tryRemove
          (satGen 8) (arenaKeyKI (satGen 8)) ⟨0, 1⟩).1 = none) :=
  ⟨by decide, ⟨[SOp.insert 5], by decide⟩, by decide,
    ⟨[SOp.insert 9], by decide⟩,
    aba_rejection.1 Nat 8 (by decide) ⟨1, [Slot.filled 1 5]⟩
      ⟨0, [Slot.empty 2 1]⟩ ⟨0, 1⟩ 5 ⟨[SOp.insert 5], by decide⟩ (by decide)
      ⟨1, [Slot.filled 3 9]⟩ ⟨[SOp.insert 9], by decide⟩⟩

end UtArena
